import Mathlib

/-!
Verification of the icon-viewer micro font parser and icon catalog
(`icon_provider/ufont.py`, `icon_provider/store.py`) against its
natural-language specification.

Modelling conventions of this shallow embedding:
* Python byte buffers (`memoryview`) are `List Nat`, each entry one byte value;
* machine integers are `Nat`/`Int`, signed values decoded explicitly;
* Python floats are exact rationals `ℚ` (the float literals `0.5`, `1.1`,
  `i32 / 65536.0` are modelled by the exact rationals they denote);
* Python dicts are insertion-ordered association lists with replace-on-update;
* code that can raise is modelled with `Option`/`Except`: `none`/`.error` marks
  a raised exception, `some`/`.ok` a normal return.
-/

namespace IconViewer

/-- Positioned byte reader over an immutable byte view (`Reader` in
`ufont.py`): `data` is the view's contents, `pos` the `io.BytesIO` cursor. -/
structure Reader where
  data : List Nat
  pos : Nat
deriving Repr, DecidableEq

/-- `Reader.read`: `self.file.read(size)`.  `BytesIO.read` clamps to the end of
the buffer and never raises: it returns the available prefix of `size` bytes
and advances the cursor by the number of bytes actually read.  (The optional
`at` argument of the Python method is not used by any parser modelled here.) -/
def Reader.read (r : Reader) (size : Nat) : List Nat × Reader :=
  let bs := (r.data.drop r.pos).take size
  (bs, ⟨r.data, r.pos + bs.length⟩)

/-- `Reader.read_string`: `self.read(size).decode(errors="backslashreplace")`,
modelled on raw bytes (the UTF-8 decode of the returned bytes is abstracted
away; the parsers compared here only move these bytes around). -/
def Reader.read_string (r : Reader) (size : Nat) : List Nat × Reader :=
  r.read size

/-- `Reader.read_struct` for a fixed-size big-endian format of `n` bytes:
`struct.unpack` raises (`Truncated`) unless exactly `n` bytes were read. -/
def Reader.read_struct (r : Reader) (n : Nat) : Option (List Nat × Reader) :=
  let (bs, r') := r.read n
  if bs.length = n then some (bs, r') else none

/-- Big-endian value of a byte list. -/
def beNat (bs : List Nat) : Nat :=
  bs.foldl (fun a b => a * 256 + b) 0

/-- Two's-complement reinterpretation of a `w`-bit unsigned value. -/
def toSigned (w : Nat) (v : Nat) : Int :=
  if v < 2 ^ (w - 1) then (v : Int) else (v : Int) - 2 ^ w

/-- `read_u8`: `self.file.read(1)[0]` — indexing an empty `bytes` raises. -/
def Reader.read_u8 (r : Reader) : Option (Nat × Reader) :=
  let (bs, r') := r.read 1
  match bs with
  | [] => none
  | b :: _ => some (b, r')

def Reader.read_i8 (r : Reader) : Option (Int × Reader) :=
  (r.read_struct 1).map (fun br => (toSigned 8 (beNat br.1), br.2))

def Reader.read_u16 (r : Reader) : Option (Nat × Reader) :=
  (r.read_struct 2).map (fun br => (beNat br.1, br.2))

def Reader.read_i16 (r : Reader) : Option (Int × Reader) :=
  (r.read_struct 2).map (fun br => (toSigned 16 (beNat br.1), br.2))

def Reader.read_u32 (r : Reader) : Option (Nat × Reader) :=
  (r.read_struct 4).map (fun br => (beNat br.1, br.2))

def Reader.read_i32 (r : Reader) : Option (Int × Reader) :=
  (r.read_struct 4).map (fun br => (toSigned 32 (beNat br.1), br.2))

def Reader.read_u64 (r : Reader) : Option (Nat × Reader) :=
  (r.read_struct 8).map (fun br => (beNat br.1, br.2))

def Reader.read_i64 (r : Reader) : Option (Int × Reader) :=
  (r.read_struct 8).map (fun br => (toSigned 64 (beNat br.1), br.2))

/-- `read_fixed`: `self.read_i32() / 65536.0`, exact in `ℚ` (the quotient of an
`i32` by `2^16` is a dyadic rational, represented exactly by a Python float). -/
def Reader.read_fixed (r : Reader) : Option (ℚ × Reader) :=
  (r.read_i32).map (fun br => ((br.1 : ℚ) / 65536, br.2))

/-- `seek(target)` with default `whence=0` (absolute). -/
def Reader.seekTo (r : Reader) (target : Nat) : Reader :=
  ⟨r.data, target⟩

/-- `advance(size)` = `seek(size, whence=1)` (relative, `size ≥ 0` here). -/
def Reader.advance (r : Reader) (size : Nat) : Reader :=
  ⟨r.data, r.pos + size⟩

/-- `view(start, end)`: `Reader(self.data[start:end])` — Python slices clamp. -/
def Reader.view (r : Reader) (start stop : Nat) : Reader :=
  ⟨(r.data.take stop).drop start, 0⟩

theorem Reader.read_fst (r : Reader) (n : Nat) :
    (r.read n).1 = (r.data.drop r.pos).take n := rfl

theorem Reader.read_fst_length (r : Reader) (n : Nat) :
    (r.read n).1.length = min n (r.data.length - r.pos) := by
  simp [Reader.read]

theorem optIsSome_map {α β : Type} (f : α → β) (o : Option α) :
    (o.map f).isSome = o.isSome := by
  cases o <;> rfl

theorem Reader.read_struct_isSome (r : Reader) (n : Nat) :
    (r.read_struct n).isSome ↔ n ≤ r.data.length - r.pos := by
  simp only [Reader.read_struct, Reader.read]
  by_cases h : ((r.data.drop r.pos).take n).length = n
  · simp only [h, if_pos rfl]
    simp only [List.length_take, List.length_drop] at h
    simp [Option.isSome_some, true_iff]
    omega
  · simp only [if_neg h]
    simp only [List.length_take, List.length_drop] at h
    simp only [Option.isSome_none, Bool.false_eq_true, false_iff]
    omega

/--
C5 (amended).  Reads over a view never return bytes beyond the view's end, and
the fixed-width operations (`read_u8/i8/u16/i16/u32/i32/u64/i64`, `read_struct`)
fail (raise `Truncated`) exactly when the requested width does not fit between
the cursor and the end of the view.  However `read` and `read_string` do not
fail on a request that would cross the end: they clamp (`BytesIO` semantics)
and return only the bytes available before the end.
-/
theorem c5_reader_truncation (r : Reader) (n : Nat) :
    ((r.read_struct n).isSome ↔ n ≤ r.data.length - r.pos) ∧
    (∀ bs r', r.read_struct n = some (bs, r') →
      bs.length = n ∧ r'.pos = r.pos + n ∧ n ≤ r.data.length - r.pos) ∧
    ((r.read n).1 = (r.data.drop r.pos).take n) ∧
    ((r.read n).1.length = min n (r.data.length - r.pos)) ∧
    ((r.read n).2.pos = r.pos + (r.read n).1.length) ∧
    (r.pos ≤ r.data.length → (r.read n).2.pos ≤ r.data.length) ∧
    ((r.read_string n).1.length = min n (r.data.length - r.pos)) ∧
    ((r.read_u8).isSome ↔ 1 ≤ r.data.length - r.pos) ∧
    ((r.read_i8).isSome ↔ 1 ≤ r.data.length - r.pos) ∧
    ((r.read_u16).isSome ↔ 2 ≤ r.data.length - r.pos) ∧
    ((r.read_i16).isSome ↔ 2 ≤ r.data.length - r.pos) ∧
    ((r.read_u32).isSome ↔ 4 ≤ r.data.length - r.pos) ∧
    ((r.read_i32).isSome ↔ 4 ≤ r.data.length - r.pos) ∧
    ((r.read_u64).isSome ↔ 8 ≤ r.data.length - r.pos) ∧
    ((r.read_i64).isSome ↔ 8 ≤ r.data.length - r.pos) := by
  have hlen : ∀ m : Nat, ((r.data.drop r.pos).take m).length = min m (r.data.length - r.pos) := by
    intro m; simp
  refine ⟨Reader.read_struct_isSome r n, ?_, rfl, Reader.read_fst_length r n, rfl, ?_, Reader.read_fst_length r n, ?_, ?_, ?_, ?_, ?_, ?_, ?_, ?_⟩
  · intro bs r' h
    have hl : ((r.data.drop r.pos).take n).length = n := by
      by_contra hl
      simp only [Reader.read_struct, Reader.read] at h
      rw [if_neg hl] at h
      exact Option.noConfusion h
    simp only [Reader.read_struct, Reader.read] at h
    rw [if_pos hl] at h
    simp only [Option.some.injEq, Prod.mk.injEq] at h
    obtain ⟨h1, h2⟩ := h
    refine ⟨?_, ?_, ?_⟩
    · rw [← h1]; exact hl
    · rw [← h2]; simp [hl]
    · have := hlen n
      rw [hl] at this
      omega
  · intro hp
    simp only [Reader.read]
    have := hlen n
    simp only [List.length_take, List.length_drop]
    omega
  · -- read_u8
    simp only [Reader.read_u8, Reader.read]
    by_cases h : 1 ≤ r.data.length - r.pos
    · have h1 : ((r.data.drop r.pos).take 1).length = 1 := by
        rw [hlen]; omega
      match hm : (r.data.drop r.pos).take 1 with
      | [] => rw [hm] at h1; simp at h1
      | b :: rest => simp [h]
    · have h1 : ((r.data.drop r.pos).take 1).length = 0 := by
        rw [hlen]; omega
      match hm : (r.data.drop r.pos).take 1 with
      | [] => simp [h]
      | b :: rest => rw [hm] at h1; simp at h1
  all_goals
    simp only [Reader.read_i8, Reader.read_u16, Reader.read_i16, Reader.read_u32,
      Reader.read_i32, Reader.read_u64, Reader.read_i64, optIsSome_map]
  all_goals exact Reader.read_struct_isSome r _

/-- Witness for `c5_reader_truncation` at a concrete reader. -/
theorem c5_reader_truncation_witness :
    ((Reader.mk [1, 2, 3] 0).read_struct 2).isSome = true ∧
    ((Reader.mk [1, 2, 3] 0).read 2).2.pos ≤ 3 := by
  have h := c5_reader_truncation (Reader.mk [1, 2, 3] 0) 2
  refine ⟨?_, ?_⟩
  · have := h.1.mpr (by decide)
    simpa using this
  · simpa using h.2.2.2.2.2.1 (by decide)

/--
C5 counterexample.  The claim states that *every* read operation, `read` and
`read_string` included, fails when it would cross the end of the view.  On the
one-byte view `[5]`, `read 2` would cross the end yet returns the clamped
one-byte prefix (and `read_string 2` likewise): `BytesIO.read` never raises.
-/
theorem c5_reader_clamp_counterexample :
    (Reader.mk [5] 0).read 2 = ([5], Reader.mk [5] 1) ∧
    (Reader.mk [65] 0).read_string 2 = ([65], Reader.mk [65] 1) := by
  decide

/-! ### Python dictionaries as insertion-ordered association lists -/

/-- Python dict update `m[k] = v`: replace the value in place when the key is
present, append at the end otherwise (insertion order preserved). -/
def dinsert {α : Type} : List (Nat × α) → Nat → α → List (Nat × α)
  | [], k, v => [(k, v)]
  | (k', v') :: rest, k, v =>
    if k' = k then (k, v) :: rest else (k', v') :: dinsert rest k v

/-- Python dict lookup `m.get(k)`. -/
def dget {α : Type} : List (Nat × α) → Nat → Option α
  | [], _ => none
  | (k', v') :: rest, k => if k' = k then some v' else dget rest k

theorem dget_dinsert_self {α : Type} (m : List (Nat × α)) (k : Nat) (v : α) :
    dget (dinsert m k v) k = some v := by
  induction m with
  | nil => simp [dinsert, dget]
  | cons kv rest ih =>
    obtain ⟨k', v'⟩ := kv
    by_cases hk : k' = k
    · simp [dinsert, hk, dget]
    · simp [dinsert, hk, dget, ih]

theorem dget_dinsert_other {α : Type} (m : List (Nat × α)) (k k' : Nat) (v : α)
    (h : k' ≠ k) : dget (dinsert m k v) k' = dget m k' := by
  have hk : ¬(k = k') := fun hh => h hh.symm
  induction m with
  | nil => simp [dinsert, dget, hk]
  | cons kv rest ih =>
    obtain ⟨a, b⟩ := kv
    by_cases ha : a = k
    · subst ha
      simp [dinsert, dget, hk]
    · simp only [dinsert, if_neg ha, dget, ih]

/-! ### Character map (`Font.parse_cmap`)

The Python code fills the two dicts while it walks the selected subtable; the
final dicts equal the fold of the written `(codepoint, glyph_id)` pairs, in
write order, over empty dicts.  `parse_cmap_events` produces that write
sequence from the raw cmap-table bytes and `parse_cmap` folds it. -/

structure CmapTable where
  codepoint_to_glyph_id : List (Nat × Nat)
  glyph_id_to_codepoint : List (Nat × Nat)
deriving Repr, DecidableEq

/-- One write iteration of the cmap loops:
`cmap.glyph_id_to_codepoint[glyph_id] = codepoint;`
`cmap.codepoint_to_glyph_id[codepoint] = glyph_id`. -/
def cmapWrite (t : CmapTable) (cp gid : Nat) : CmapTable :=
  ⟨dinsert t.codepoint_to_glyph_id cp gid, dinsert t.glyph_id_to_codepoint gid cp⟩

def applyEvents : List (Nat × Nat) → CmapTable → CmapTable
  | [], t => t
  | (cp, gid) :: rest, t => applyEvents rest (cmapWrite t cp gid)

/-- `for codepoint in range(codepoint_start, codepoint_end + 1)` of one
format-12 group, with the running `glyph_id += 1`: `n` iterations remain,
`cp` is the current codepoint, `gid` the current glyph id. -/
def range12Events : Nat → Nat → Nat → List (Nat × Nat)
  | 0, _, _ => []
  | n + 1, cp, gid => (cp, gid) :: range12Events n (cp + 1) (gid + 1)

/-- Write sequence of one format-12 group `(start, end, start_gid)`; the Python
range runs `end + 1 - start` times (empty when `end + 1 ≤ start`). -/
def group12Events (s e gid : Nat) : List (Nat × Nat) :=
  range12Events (e + 1 - s) s gid

def cmap12Events : List (Nat × Nat × Nat) → List (Nat × Nat)
  | [] => []
  | (s, e, gid) :: rest => group12Events s e gid ++ cmap12Events rest

/-- Reads `n` format-12 groups `(startCode, endCode, startGlyphID)`. -/
def readGroups (r : Reader) : Nat → Option (List (Nat × Nat × Nat) × Reader)
  | 0 => some ([], r)
  | n + 1 =>
    (r.read_u32).bind fun (s, r) =>
    (r.read_u32).bind fun (e, r) =>
    (r.read_u32).bind fun (g, r) =>
    (readGroups r n).map fun (gs, r') => ((s, e, g) :: gs, r')

def readU16List (r : Reader) : Nat → Option (List Nat × Reader)
  | 0 => some ([], r)
  | n + 1 =>
    (r.read_u16).bind fun (v, r) =>
    (readU16List r n).map fun (vs, r') => (v :: vs, r')

def readI16List (r : Reader) : Nat → Option (List Int × Reader)
  | 0 => some ([], r)
  | n + 1 =>
    (r.read_i16).bind fun (v, r) =>
    (readI16List r n).map fun (vs, r') => (v :: vs, r')

/-- Inner loop of a format-4 segment with `id_range_offset == 0`:
`glyph_id = (codepoint + id_delta) % 65536` (Python `%` is nonnegative). -/
def range4Events : Nat → Nat → Int → List (Nat × Nat)
  | 0, _, _ => []
  | n + 1, cp, delta =>
    (cp, (((cp : Int) + delta).emod 65536).toNat) :: range4Events n (cp + 1) delta

/-- Format-4 segment walk (`zip` of the four arrays).  The sentinel segment
`(0xFFFF, 0xFFFF)` breaks the outer loop; a nonzero `id_range_offset` breaks
the inner loop before any write (the indirect branch is unimplemented). -/
def cmap4Events : List Nat → List Nat → List Int → List Nat → List (Nat × Nat)
  | ec :: ecs, sc :: scs, d :: ds, ro :: ros =>
    if ec = sc ∧ sc = 0xFFFF then []
    else
      (if ro = 0 then range4Events (ec + 1 - sc) sc d else []) ++
        cmap4Events ecs scs ds ros
  | _, _, _, _ => []

/-- Subtable-directory scan: the last `(platform 0, encoding 4)` offset wins;
a `(platform 0, encoding 3)` offset is taken only while the accumulator is
still falsy (`0`). -/
def findUnicodeOffset (r : Reader) : Nat → Nat → Option (Nat × Reader)
  | 0, acc => some (acc, r)
  | n + 1, acc =>
    (r.read_u16).bind fun (p, r) =>
    (r.read_u16).bind fun (e, r) =>
    (r.read_u32).bind fun (off, r) =>
    findUnicodeOffset r n
      (if p = 0 ∧ e = 4 then off
       else if acc = 0 ∧ p = 0 ∧ e = 3 then off else acc)

/-- `Font.parse_cmap` over the cmap table's bytes, producing the sequence of
dict writes.  `none` models every raised error: `Truncated`, the
`unicode_table_offset == 0` failure and an unsupported subtable format. -/
def parse_cmap_events (data : List Nat) : Option (List (Nat × Nat)) :=
  let r : Reader := ⟨data, 0⟩
  (r.read_u16).bind fun (_, r) =>
  (r.read_u16).bind fun (numTables, r) =>
  (findUnicodeOffset r numTables 0).bind fun (off, r) =>
  if off = 0 then none
  else
    let r := r.seekTo off
    (r.read_u16).bind fun (fmt, r) =>
    if fmt = 12 then
      (r.read_u16).bind fun (_, r) =>
      (r.read_u32).bind fun (_, r) =>
      (r.read_u32).bind fun (_, r) =>
      (r.read_u32).bind fun (numGroups, r) =>
      (readGroups r numGroups).map fun (groups, _) => cmap12Events groups
    else if fmt = 4 then
      (r.read_u16).bind fun (stLength, r) =>
      let st := r.view r.pos (r.pos + stLength)
      let st := st.advance 2
      (st.read_u16).bind fun (segCountX2, st) =>
      let segmentCount := segCountX2 / 2
      let st := st.advance 6
      (readU16List st segmentCount).bind fun (endCodes, st) =>
      (st.read_u16).bind fun (_, st) =>
      (readU16List st segmentCount).bind fun (startCodes, st) =>
      (readI16List st segmentCount).bind fun (idDeltas, st) =>
      (readU16List st segmentCount).bind fun (idRangeOffsets, st) =>
      (readU16List st ((st.data.length - st.pos) / 2)).map fun _ =>
        cmap4Events endCodes startCodes idDeltas idRangeOffsets
    else none

def parse_cmap (data : List Nat) : Option CmapTable :=
  (parse_cmap_events data).map fun evs => applyEvents evs ⟨[], []⟩

/-- Cmap table bytes with one format-12 subtable holding the single group
`(0x41, 0x43, 10)`. -/
def c1FontCmapBytes : List Nat :=
  [0, 0, 0, 1, 0, 0, 0, 4, 0, 0, 0, 12,
   0, 12, 0, 0, 0, 0, 0, 0, 0, 0, 0, 0, 0, 0, 0, 1,
   0, 0, 0, 0x41, 0, 0, 0, 0x43, 0, 0, 0, 10]

theorem applyEvents_range12_c2g_lt (n : Nat) :
    ∀ s g t cp, cp < s →
      dget (applyEvents (range12Events n s g) t).codepoint_to_glyph_id cp
        = dget t.codepoint_to_glyph_id cp := by
  induction n with
  | zero => intro s g t cp _; rfl
  | succ n ih =>
    intro s g t cp h
    simp only [range12Events, applyEvents]
    rw [ih (s + 1) (g + 1) _ cp (by omega)]
    exact dget_dinsert_other _ s cp g (by omega)

theorem applyEvents_range12_g2c_lt (n : Nat) :
    ∀ s g t gid, gid < g →
      dget (applyEvents (range12Events n s g) t).glyph_id_to_codepoint gid
        = dget t.glyph_id_to_codepoint gid := by
  induction n with
  | zero => intro s g t gid _; rfl
  | succ n ih =>
    intro s g t gid h
    simp only [range12Events, applyEvents]
    rw [ih (s + 1) (g + 1) _ gid (by omega)]
    exact dget_dinsert_other _ g gid s (by omega)

theorem applyEvents_range12_c2g (n : Nat) :
    ∀ s g t cp, s ≤ cp → cp < s + n →
      dget (applyEvents (range12Events n s g) t).codepoint_to_glyph_id cp
        = some (g + (cp - s)) := by
  induction n with
  | zero => intro s g t cp h1 h2; omega
  | succ n ih =>
    intro s g t cp h1 h2
    simp only [range12Events, applyEvents]
    by_cases hc : cp = s
    · subst hc
      rw [applyEvents_range12_c2g_lt n (cp + 1) (g + 1) _ cp (by omega)]
      simp only [cmapWrite]
      rw [dget_dinsert_self]
      congr 1
      omega
    · have : (g + 1) + (cp - (s + 1)) = g + (cp - s) := by omega
      rw [← this]
      exact ih (s + 1) (g + 1) _ cp (by omega) (by omega)

theorem applyEvents_range12_g2c (n : Nat) :
    ∀ s g t cp, s ≤ cp → cp < s + n →
      dget (applyEvents (range12Events n s g) t).glyph_id_to_codepoint (g + (cp - s))
        = some cp := by
  induction n with
  | zero => intro s g t cp h1 h2; omega
  | succ n ih =>
    intro s g t cp h1 h2
    simp only [range12Events, applyEvents]
    by_cases hc : cp = s
    · subst hc
      rw [applyEvents_range12_g2c_lt n (cp + 1) (g + 1) _ (g + (cp - cp)) (by omega)]
      simp only [cmapWrite]
      have : g + (cp - cp) = g := by omega
      rw [this, dget_dinsert_self]
    · have : g + (cp - s) = (g + 1) + (cp - (s + 1)) := by omega
      rw [this]
      exact ih (s + 1) (g + 1) _ cp (by omega) (by omega)

/--
C1 (confirmed).  Expanding a format-12 group `(start_cp, end_cp, start_gid)`
writes, for every codepoint `cp ∈ [start_cp, end_cp]`, the mapping
`cp ↦ start_gid + (cp − start_cp)` and its inverse entry — whatever the dicts
already contained; and parsing a cmap table with the single group
`(0x41, 0x43, 10)` yields exactly `{0x41↦10, 0x42↦11, 0x43↦12}` and its
inverse.
-/
theorem c1_cmap12_group_expansion :
    (∀ s e g t cp, s ≤ cp → cp ≤ e →
      dget (applyEvents (group12Events s e g) t).codepoint_to_glyph_id cp
          = some (g + (cp - s)) ∧
      dget (applyEvents (group12Events s e g) t).glyph_id_to_codepoint (g + (cp - s))
          = some cp) ∧
    parse_cmap c1FontCmapBytes =
      some ⟨[(0x41, 10), (0x42, 11), (0x43, 12)], [(10, 0x41), (11, 0x42), (12, 0x43)]⟩ := by
  constructor
  · intro s e g t cp h1 h2
    constructor
    · exact applyEvents_range12_c2g (e + 1 - s) s g t cp h1 (by omega)
    · exact applyEvents_range12_g2c (e + 1 - s) s g t cp h1 (by omega)
  · decide

/-- Witness for `c1_cmap12_group_expansion` at the claim's concrete group. -/
theorem c1_cmap12_group_expansion_witness :
    dget (applyEvents (group12Events 0x41 0x43 10) ⟨[], []⟩).codepoint_to_glyph_id 0x42
        = some 11 ∧
    dget (applyEvents (group12Events 0x41 0x43 10) ⟨[], []⟩).glyph_id_to_codepoint 11
        = some 0x42 := by
  have h := c1_cmap12_group_expansion.1 0x41 0x43 10 ⟨[], []⟩ 0x42 (by decide) (by decide)
  have e1 : 10 + (0x42 - 0x41) = 11 := by decide
  rw [e1] at h
  exact h

theorem dget_applyEvents_fst (evs : List (Nat × Nat)) :
    ∀ t cp, (evs.map Prod.fst).Nodup →
      dget (applyEvents evs t).codepoint_to_glyph_id cp =
        (match evs.find? (fun ev => ev.1 == cp) with
         | some ev => some ev.2
         | none => dget t.codepoint_to_glyph_id cp) := by
  induction evs with
  | nil => intro t cp _; rfl
  | cons ev rest ih =>
    intro t cp hnd
    obtain ⟨c, g⟩ := ev
    simp only [List.map_cons, List.nodup_cons] at hnd
    obtain ⟨hc, hrest⟩ := hnd
    simp only [applyEvents, List.find?]
    by_cases hcp : c = cp
    · subst hcp
      simp only [beq_self_eq_true]
      rw [ih _ c hrest]
      have hfind : rest.find? (fun ev => ev.1 == c) = none := by
        rw [List.find?_eq_none]
        intro x hx hxc
        have hxc' : x.1 = c := by simpa using hxc
        exact hc (hxc' ▸ List.mem_map_of_mem Prod.fst hx)
      rw [hfind]
      simp only [cmapWrite]
      exact dget_dinsert_self _ c g
    · have : ((c == cp) : Bool) = false := by
        simp [hcp]
      rw [this]
      rw [ih _ cp hrest]
      cases hfind : rest.find? (fun ev => ev.1 == cp) with
      | some e => rfl
      | none =>
        simp only [cmapWrite]
        exact dget_dinsert_other _ c cp g (fun hh => hcp hh.symm)

theorem dget_applyEvents_snd (evs : List (Nat × Nat)) :
    ∀ t gid, (evs.map Prod.snd).Nodup →
      dget (applyEvents evs t).glyph_id_to_codepoint gid =
        (match evs.find? (fun ev => ev.2 == gid) with
         | some ev => some ev.1
         | none => dget t.glyph_id_to_codepoint gid) := by
  induction evs with
  | nil => intro t gid _; rfl
  | cons ev rest ih =>
    intro t gid hnd
    obtain ⟨c, g⟩ := ev
    simp only [List.map_cons, List.nodup_cons] at hnd
    obtain ⟨hg, hrest⟩ := hnd
    simp only [applyEvents, List.find?]
    by_cases hgid : g = gid
    · subst hgid
      simp only [beq_self_eq_true]
      rw [ih _ g hrest]
      have hfind : rest.find? (fun ev => ev.2 == g) = none := by
        rw [List.find?_eq_none]
        intro x hx hxg
        have hxg' : x.2 = g := by simpa using hxg
        exact hg (hxg' ▸ List.mem_map_of_mem Prod.snd hx)
      rw [hfind]
      simp only [cmapWrite]
      exact dget_dinsert_self _ g c
    · have : ((g == gid) : Bool) = false := by
        simp [hgid]
      rw [this]
      rw [ih _ gid hrest]
      cases hfind : rest.find? (fun ev => ev.2 == gid) with
      | some e => rfl
      | none =>
        simp only [cmapWrite]
        exact dget_dinsert_other _ g gid c (fun hh => hgid hh.symm)

theorem find?_fst_of_mem (evs : List (Nat × Nat)) (cp gid : Nat)
    (hnd : (evs.map Prod.fst).Nodup) (hm : (cp, gid) ∈ evs) :
    evs.find? (fun ev => ev.1 == cp) = some (cp, gid) := by
  induction evs with
  | nil => simp at hm
  | cons ev rest ih =>
    obtain ⟨c, g⟩ := ev
    simp only [List.map_cons, List.nodup_cons] at hnd
    obtain ⟨hc, hrest⟩ := hnd
    rcases List.mem_cons.mp hm with hh | hh
    · injection hh with h1 h2
      subst h1
      subst h2
      simp [List.find?]
    · simp only [List.find?]
      have : ((c == cp) : Bool) = false := by
        simp only [beq_eq_false_iff_ne, ne_eq]
        intro hccp
        exact hc (hccp ▸ List.mem_map_of_mem Prod.fst hh)
      rw [this]
      exact ih hrest hh

theorem find?_snd_of_mem (evs : List (Nat × Nat)) (cp gid : Nat)
    (hnd : (evs.map Prod.snd).Nodup) (hm : (cp, gid) ∈ evs) :
    evs.find? (fun ev => ev.2 == gid) = some (cp, gid) := by
  induction evs with
  | nil => simp at hm
  | cons ev rest ih =>
    obtain ⟨c, g⟩ := ev
    simp only [List.map_cons, List.nodup_cons] at hnd
    obtain ⟨hg, hrest⟩ := hnd
    rcases List.mem_cons.mp hm with hh | hh
    · injection hh with h1 h2
      subst h1
      subst h2
      simp [List.find?]
    · simp only [List.find?]
      have : ((g == gid) : Bool) = false := by
        simp only [beq_eq_false_iff_ne, ne_eq]
        intro hggid
        exact hg (hggid ▸ List.mem_map_of_mem Prod.snd hh)
      rw [this]
      exact ih hrest hh

/--
C8 (amended).  When the cmap subtable parses successfully *and* the expanded
write sequence repeats no codepoint and no glyph id, the two resulting dicts
are mutual inverses as partial maps.  (Without that duplicate-freedom the later
writes overwrite earlier ones and the equivalence fails, see the
counterexample.)
-/
theorem c8_cmap_mutual_inverse (data : List Nat) (evs : List (Nat × Nat))
    (t : CmapTable) (hevs : parse_cmap_events data = some evs)
    (ht : parse_cmap data = some t)
    (h1 : (evs.map Prod.fst).Nodup) (h2 : (evs.map Prod.snd).Nodup) :
    ∀ cp gid, dget t.codepoint_to_glyph_id cp = some gid ↔
              dget t.glyph_id_to_codepoint gid = some cp := by
  have ht' : t = applyEvents evs ⟨[], []⟩ := by
    rw [parse_cmap, hevs] at ht
    exact (Option.some.inj ht).symm
  subst ht'
  intro cp gid
  rw [dget_applyEvents_fst evs ⟨[], []⟩ cp h1,
    dget_applyEvents_snd evs ⟨[], []⟩ gid h2]
  constructor
  · intro h
    cases hfind : evs.find? (fun ev => ev.1 == cp) with
    | none => rw [hfind] at h; exact Option.noConfusion h
    | some e =>
      rw [hfind] at h
      have he2 : e.2 = gid := Option.some.inj h
      have hecp : e.1 = cp := by
        have := List.find?_some hfind
        simpa using this
      have hmem : e ∈ evs := List.mem_of_find?_eq_some hfind
      have : (cp, gid) ∈ evs := by
        have : e = (cp, gid) := Prod.ext hecp he2
        rwa [this] at hmem
      rw [find?_snd_of_mem evs cp gid h2 this]
  · intro h
    cases hfind : evs.find? (fun ev => ev.2 == gid) with
    | none => rw [hfind] at h; exact Option.noConfusion h
    | some e =>
      rw [hfind] at h
      have he1 : e.1 = cp := Option.some.inj h
      have hegid : e.2 = gid := by
        have := List.find?_some hfind
        simpa using this
      have hmem : e ∈ evs := List.mem_of_find?_eq_some hfind
      have : (cp, gid) ∈ evs := by
        have : e = (cp, gid) := Prod.ext he1 hegid
        rwa [this] at hmem
      rw [find?_fst_of_mem evs cp gid h1 this]

/-- Witness for `c8_cmap_mutual_inverse` on the single-group cmap of C1. -/
theorem c8_cmap_mutual_inverse_witness :
    dget (applyEvents [(0x41, 10), (0x42, 11), (0x43, 12)] ⟨[], []⟩).codepoint_to_glyph_id 0x41
        = some 10 ↔
    dget (applyEvents [(0x41, 10), (0x42, 11), (0x43, 12)] ⟨[], []⟩).glyph_id_to_codepoint 10
        = some 0x41 := by
  exact c8_cmap_mutual_inverse c1FontCmapBytes [(0x41, 10), (0x42, 11), (0x43, 12)]
    (applyEvents [(0x41, 10), (0x42, 11), (0x43, 12)] ⟨[], []⟩)
    (by decide) (by decide) (by decide) (by decide) 0x41 10

/-- Cmap table bytes, format 12, two groups `(0x41, 0x41, 5)` and
`(0x42, 0x42, 5)`: both codepoints map to glyph 5. -/
def c8FontCmapBytes : List Nat :=
  [0, 0, 0, 1, 0, 0, 0, 4, 0, 0, 0, 12,
   0, 12, 0, 0, 0, 0, 0, 0, 0, 0, 0, 0, 0, 0, 0, 2,
   0, 0, 0, 0x41, 0, 0, 0, 0x41, 0, 0, 0, 5,
   0, 0, 0, 0x42, 0, 0, 0, 0x42, 0, 0, 0, 5]

/--
C8 counterexample.  On `c8FontCmapBytes` the cmap parses successfully, yet the
maps are not mutual inverses: `codepoint_to_glyph_id` sends `0x41` to glyph 5
while `glyph_id_to_codepoint` sends glyph 5 back to `0x42 ≠ 0x41` (the second
group's write overwrote the first).
-/
theorem c8_cmap_inverse_counterexample :
    (parse_cmap c8FontCmapBytes).map
        (fun t => (dget t.codepoint_to_glyph_id 0x41, dget t.glyph_id_to_codepoint 5))
      = some (some 5, some 0x42) := by
  decide

/-! ### PostScript names (`Font.parse_post`) -/

/-- Python `max` over a sequence; `none` models the `ValueError` that `max()`
raises on an empty sequence. -/
def listMax : List Nat → Option Nat
  | [] => none
  | x :: xs => some (xs.foldl max x)

/-- The `glyph_id_to_index` loop of `parse_post` (version 2): `g` is the
running `glyph_index`; only entries with `name_index ≥ 258` are recorded,
mapped to `name_index - 258`.  Keys are strictly increasing, so the dict is a
plain association list. -/
def postFilterGo : Nat → List Nat → List (Nat × Nat)
  | _, [] => []
  | g, idx :: rest =>
    if 258 ≤ idx then (g, idx - 258) :: postFilterGo (g + 1) rest
    else postFilterGo (g + 1) rest

/-- The Pascal-string loop: `length = read_u8()` then `read_string(length)`
(which clamps at the view's end without failing). -/
def readPascalNames (r : Reader) : Nat → Option (List (List Nat) × Reader)
  | 0 => some ([], r)
  | n + 1 =>
    (r.read_u8).bind fun (len, r) =>
    (fun (bs, r) =>
      (readPascalNames r n).map fun (names, r') => (bs :: names, r'))
      (r.read_string len)

/-- `Font.parse_post` over the post table's bytes.  The version test
`read_fixed() != 2` compares `i32 / 65536.0` with `2.0`; that float quotient is
exact (a dyadic rational), so the test is modelled exactly by comparing the raw
`i32` with `2 * 65536 = 131072`.  The glyph-to-name dict binds
`glyph_id ↦ names[index]`; the recorded indices are at most the maximum used to
size `names`, so the `getD` default is never taken. -/
def parse_post (data : List Nat) : Option (List (Nat × List Nat)) :=
  match (Reader.mk data 0).read_i32 with
  | none => none
  | some (version, r) =>
    if version ≠ (131072 : Int) then some []
    else
      match (r.advance 28).read_u16 with
      | none => none
      | some (glyphCount, r) =>
        match readU16List r glyphCount with
        | none => none
        | some (idxs, r) =>
          match listMax ((postFilterGo 0 idxs).map Prod.snd) with
          | none => none
          | some maxIdx =>
            match readPascalNames r (maxIdx + 1) with
            | none => none
            | some (names, _) =>
              some ((postFilterGo 0 idxs).map fun p => (p.1, names.getD p.2 []))

theorem dget_postFilter_lt (f : Nat → List Nat) :
    ∀ (idxs : List Nat) (g0 k : Nat), k < g0 →
      dget ((postFilterGo g0 idxs).map (fun p => (p.1, f p.2))) k = none := by
  intro idxs
  induction idxs with
  | nil => intro g0 k _; rfl
  | cons idx rest ih =>
    intro g0 k hk
    by_cases h258 : 258 ≤ idx
    · simp only [postFilterGo, if_pos h258, List.map_cons, dget]
      rw [if_neg (by omega)]
      exact ih (g0 + 1) k (by omega)
    · simp only [postFilterGo, if_neg h258]
      exact ih (g0 + 1) k (by omega)

theorem dget_postFilter_map (f : Nat → List Nat) :
    ∀ (idxs : List Nat) (g0 d : Nat),
      dget ((postFilterGo g0 idxs).map (fun p => (p.1, f p.2))) (g0 + d) =
        (match idxs.get? d with
         | some idx => if 258 ≤ idx then some (f (idx - 258)) else none
         | none => none) := by
  intro idxs
  induction idxs with
  | nil => intro g0 d; rfl
  | cons idx rest ih =>
    intro g0 d
    cases d with
    | zero =>
      by_cases h258 : 258 ≤ idx
      · simp [postFilterGo, if_pos h258, dget, List.get?]
      · simp only [postFilterGo, if_neg h258, Nat.add_zero, List.get?]
        rw [dget_postFilter_lt f rest (g0 + 1) g0 (by omega)]
    | succ d' =>
      have hkey : g0 + (d' + 1) = (g0 + 1) + d' := by omega
      by_cases h258 : 258 ≤ idx
      · simp only [postFilterGo, if_pos h258, List.map_cons, dget, List.get?]
        rw [if_neg (by omega), hkey]
        exact ih (g0 + 1) d'
      · simp only [postFilterGo, if_neg h258, List.get?]
        rw [hkey]
        exact ih (g0 + 1) d'

/--
C2 (amended).  For a post table of version 2 the parsed name map *omits* every
glyph index whose `name_index` is below 258 (no standard-258 list is
consulted), and sends each glyph index with `name_index ≥ 258` to the Pascal
string at position `name_index − 258` of the appended string array; a post
table of any other version yields the empty map.
-/
theorem c2_post_v2_name_map (data : List Nat) (version : Int) (r1 : Reader)
    (hv : (Reader.mk data 0).read_i32 = some (version, r1)) :
    (version ≠ 131072 → parse_post data = some []) ∧
    (∀ glyphCount r2 idxs r3 m, version = 131072 →
      (r1.advance 28).read_u16 = some (glyphCount, r2) →
      readU16List r2 glyphCount = some (idxs, r3) →
      parse_post data = some m →
      ∀ gid idx, idxs.get? gid = some idx →
        (idx < 258 → dget m gid = none) ∧
        (∀ maxIdx names r4, 258 ≤ idx →
          listMax ((postFilterGo 0 idxs).map Prod.snd) = some maxIdx →
          readPascalNames r3 (maxIdx + 1) = some (names, r4) →
          dget m gid = some (names.getD (idx - 258) []))) := by
  constructor
  · intro hne
    unfold parse_post
    rw [hv]
    simp [hne]
  · intro glyphCount r2 idxs r3 m hver h16 hlist hm gid idx hidx
    subst hver
    unfold parse_post at hm
    rw [hv] at hm
    simp only [ne_eq, not_true_eq_false, if_false, ite_false] at hm
    rw [h16] at hm
    simp only at hm
    rw [hlist] at hm
    simp only at hm
    cases hmax' : listMax ((postFilterGo 0 idxs).map Prod.snd) with
    | none => rw [hmax'] at hm; exact Option.noConfusion hm
    | some maxIdx' =>
      rw [hmax'] at hm
      simp only at hm
      cases hnames' : readPascalNames r3 (maxIdx' + 1) with
      | none => rw [hnames'] at hm; exact Option.noConfusion hm
      | some namesR =>
        obtain ⟨names', r4'⟩ := namesR
        rw [hnames'] at hm
        simp only [Option.some.injEq] at hm
        constructor
        · intro hlt
          rw [← hm]
          have hd := dget_postFilter_map (fun i => names'.getD i []) idxs 0 gid
          rw [Nat.zero_add] at hd
          rw [hd, hidx]
          show (if 258 ≤ idx then some (names'.getD (idx - 258) []) else none) = none
          rw [if_neg (show ¬258 ≤ idx by omega)]
        · intro maxIdx names r4 h258 hmax hnames
          have hmax_eq : maxIdx' = maxIdx := Option.some.inj hmax
          subst hmax_eq
          have hnames_eq : names' = names :=
            congrArg Prod.fst (Option.some.inj (hnames'.symm.trans hnames))
          subst hnames_eq
          rw [← hm]
          have hd := dget_postFilter_map (fun i => names'.getD i []) idxs 0 gid
          rw [Nat.zero_add] at hd
          rw [hd, hidx]
          show (if 258 ≤ idx then some (names'.getD (idx - 258) []) else none)
            = some (names'.getD (idx - 258) [])
          rw [if_pos h258]

/-- Post-table bytes: version 2.0, 28 header bytes, `numGlyphs = 2`,
`name_indices = [0, 258]`, one appended Pascal string `"A"`. -/
def c2PostBytes : List Nat :=
  [0, 2, 0, 0,
   0, 0, 0, 0, 0, 0, 0, 0, 0, 0, 0, 0, 0, 0, 0, 0,
   0, 0, 0, 0, 0, 0, 0, 0, 0, 0, 0, 0,
   0, 2, 0, 0, 1, 2, 1, 65]

/--
C2 counterexample.  On `c2PostBytes`, glyph 0 has `name_index = 0 < 258`, so
the claim says it maps to the standard-258 list's entry 0 (".notdef"); the
code instead omits it from the map entirely (`dget m 0 = none`), while glyph 1
(`name_index = 258`) maps to the appended string `"A"` (byte 65).
-/
theorem c2_post_low_index_counterexample :
    (parse_post c2PostBytes).map (fun m => (dget m 0, dget m 1))
      = some (none, some [65]) := by
  decide

/-- Witness for `c2_post_v2_name_map` at `c2PostBytes`. -/
theorem c2_post_v2_name_map_witness :
    dget [(1, ([65] : List Nat))] 1 = some [65] ∧
    dget [(1, ([65] : List Nat))] 0 = none := by
  have h := c2_post_v2_name_map c2PostBytes 131072 (Reader.mk c2PostBytes 4) (by decide)
  have h2 := h.2 2 (Reader.mk c2PostBytes 34) [0, 258] (Reader.mk c2PostBytes 38)
    [(1, [65])] rfl (by decide) (by decide) (by decide)
  constructor
  · have := (h2 1 258 (by decide)).2 0 [[65]] (Reader.mk c2PostBytes 40)
      (by decide) (by decide) (by decide)
    simpa using this
  · exact (h2 0 0 (by decide)).1 (by decide)

/-! ### Horizontal metrics (`Font.parse_hmtx`, `HmtxTable.get_advance`) -/

structure Metrics where
  advance : Nat
  side_bearing : Int
deriving Repr, DecidableEq

structure HmtxTable where
  metrics : List Metrics
  bearings : List Int
  number_of_metrics : Nat
deriving Repr, DecidableEq

/-- The `Metrics(read_u16(), read_i16())` loop. -/
def readMetrics (r : Reader) : Nat → Option (List Metrics × Reader)
  | 0 => some ([], r)
  | n + 1 =>
    (r.read_u16).bind fun (adv, r) =>
    (r.read_i16).bind fun (sb, r) =>
    (readMetrics r n).map fun (ms, r') => (⟨adv, sb⟩ :: ms, r')

/-- `Font.parse_hmtx` over the hmtx table's bytes, given `glyph_count` (from
`maxp`) and `hhea.number_of_metrics`.  When `glyph_count > number_of_metrics`,
the trailing left-side bearings are read and `number_of_metrics` grows to
`glyph_count`. -/
def parse_hmtx (data : List Nat) (glyph_count nm0 : Nat) : Option HmtxTable :=
  (readMetrics (Reader.mk data 0) nm0).bind fun (metrics, r) =>
  if nm0 < glyph_count then
    (readI16List r (glyph_count - nm0)).map fun (bearings, _) =>
      ⟨metrics, bearings, nm0 + (glyph_count - nm0)⟩
  else some ⟨metrics, [], nm0⟩

/-- `HmtxTable.get_advance`.  The outer `Option` distinguishes raising from
returning: `some none` is Python's `return None`, `some (some a)` returns the
advance `a`, and `none` models the `IndexError` of `self.metrics[-1]` on an
empty metrics list. -/
def HmtxTable.get_advance (t : HmtxTable) (glyph_id : Nat) : Option (Option Nat) :=
  if t.number_of_metrics ≤ glyph_id then some none
  else if h : glyph_id < t.metrics.length then
    some (some (t.metrics.get ⟨glyph_id, h⟩).advance)
  else (t.metrics.getLast?).map (fun m => some m.advance)

/--
C6 (amended).  For a parsed hmtx table, a `glyph_id` beyond the last metric
inherits the last metric's advance only while `glyph_id < number_of_metrics`
(which the parser sets to `glyph_count` when trailing bearings exist, and to
the metric count otherwise); for `glyph_id ≥ number_of_metrics`, `get_advance`
returns `None` rather than the last advance.
-/
theorem c6_get_advance_tail (data : List Nat) (glyph_count nm0 : Nat)
    (t : HmtxTable) (hp : parse_hmtx data glyph_count nm0 = some t)
    (glyph_id : Nat) :
    (t.number_of_metrics ≤ glyph_id → t.get_advance glyph_id = some none) ∧
    (∀ m, t.metrics.length ≤ glyph_id → glyph_id < t.number_of_metrics →
      t.metrics.getLast? = some m →
      t.get_advance glyph_id = some (some m.advance)) := by
  constructor
  · intro hge
    rw [HmtxTable.get_advance, if_pos hge]
  · intro m hlen hlt hlast
    rw [HmtxTable.get_advance, if_neg (by omega)]
    rw [dif_neg (by omega)]
    rw [hlast]
    rfl

/-- Hmtx bytes: one metric `(advance 10, bearing 2)` and two trailing bearings,
for `glyph_count = 3`, `hhea.number_of_metrics = 1`. -/
def c6HmtxBytes : List Nat := [0, 10, 0, 2, 0, 1, 0, 1]

/-- Witness for `c6_get_advance_tail`: on the parsed table, glyph 2 (beyond the
single metric, below `number_of_metrics = 3`) inherits advance 10, and glyph 3
gets `None`. -/
theorem c6_get_advance_tail_witness :
    (HmtxTable.mk [⟨10, 2⟩] [1, 1] 3).get_advance 2 = some (some 10) ∧
    (HmtxTable.mk [⟨10, 2⟩] [1, 1] 3).get_advance 3 = some none := by
  have h2 := c6_get_advance_tail c6HmtxBytes 3 1 (HmtxTable.mk [⟨10, 2⟩] [1, 1] 3)
    (by decide) 2
  have h3 := c6_get_advance_tail c6HmtxBytes 3 1 (HmtxTable.mk [⟨10, 2⟩] [1, 1] 3)
    (by decide) 3
  exact ⟨h2.2 ⟨10, 2⟩ (by decide) (by decide) (by decide), h3.1 (by decide)⟩

/--
C6 counterexample.  The claim says *any* `glyph_id` greater than the last
metric's index inherits the last advance; but on the parsed table (one metric,
two bearings, `number_of_metrics = 3`) `get_advance 3` — glyph 3 being greater
than the last metric index 0 — returns `None` (`some none` in the model), not
the last metric's advance.
-/
theorem c6_get_advance_counterexample :
    (parse_hmtx c6HmtxBytes 3 1).map
        (fun t => (t.metrics.length, t.get_advance 3)) = some (1, some none) := by
  decide

/-! ### Simple glyph outline points (`Glyph._simple_outline_points`)

Flag bits: `ON_CURVE_POINT 0x01`, `X_SHORT_VECTOR 0x02`, `Y_SHORT_VECTOR 0x04`,
`REPEAT_FLAG 0x08`, `X_SAME_OR_POS 0x10`, `Y_SAME_OR_POS 0x20`. -/

/-- A decoded glyph point: accumulated integer coordinate, on-curve bit and
whether its index is one of the contour endpoints. -/
structure GlyphPoint where
  coord : Int × Int
  on_curve : Bool
  last : Bool
deriving Repr, DecidableEq

/-- `x_len` contribution of one flag run (`u8` per point when `X_SHORT_VECTOR`,
`i16` per point when neither short nor same, nothing otherwise). -/
def xContrib (flag repeats : Nat) : Nat :=
  if flag &&& 0x02 ≠ 0 then repeats
  else if flag &&& 0x10 = 0 then repeats * 2
  else 0

def yContrib (flag repeats : Nat) : Nat :=
  if flag &&& 0x04 ≠ 0 then repeats
  else if flag &&& 0x20 = 0 then repeats * 2
  else 0

/-- The flag-collection loop (`while flags_left > 0`).  Each iteration appends
the whole run of `1 + extra` copies *before* testing `repeats > flags_left`;
on that test it breaks, keeping the overshooting run and skipping the run's
`x/y` length contributions.  `fuel` bounds the iteration count structurally;
every iteration consumes `repeats ≥ 1` from `flagsLeft`, so
`fuel = flagsLeft + 1` never runs out (the wrapper `readFlags` supplies it). -/
def readFlagsFuel : Nat → Reader → Nat → List Nat → Nat → Nat →
    Option (List Nat × Nat × Nat × Reader)
  | 0, _, _, _, _, _ => none
  | fuel + 1, r, flagsLeft, flags, xLen, yLen =>
    if flagsLeft = 0 then some (flags, xLen, yLen, r)
    else
      match r.read_u8 with
      | none => none
      | some (flag, r1) =>
        match (if flag &&& 0x08 ≠ 0 then r1.read_u8 else some (0, r1)) with
        | none => none
        | some (extra, r2) =>
          if flagsLeft < 1 + extra then
            some (flags ++ List.replicate (1 + extra) flag, xLen, yLen, r2)
          else
            readFlagsFuel fuel r2 (flagsLeft - (1 + extra))
              (flags ++ List.replicate (1 + extra) flag)
              (xLen + xContrib flag (1 + extra)) (yLen + yContrib flag (1 + extra))

def readFlags (r : Reader) (flagsLeft : Nat) : Option (List Nat × Nat × Nat × Reader) :=
  readFlagsFuel (flagsLeft + 1) r flagsLeft [] 0 0

/-- The per-flag coordinate-delta loop (`for index, flag in enumerate(flags)`):
a short delta is a `u8`, negated unless the SAME_OR_POS bit is set; otherwise
an `i16` unless SAME_OR_POS (delta 0). -/
def decodePoints (endpoints : List Nat) :
    List Nat → Reader → Reader → Int → Int → Nat → Option (List GlyphPoint)
  | [], _, _, _, _, _ => some []
  | flag :: rest, xr, yr, x, y, index =>
    match (if flag &&& 0x02 ≠ 0 then
             (xr.read_u8).map (fun dr =>
               ((if flag &&& 0x10 = 0 then -(dr.1 : Int) else (dr.1 : Int)), dr.2))
           else if flag &&& 0x10 = 0 then xr.read_i16
           else some (0, xr)) with
    | none => none
    | some (dx, xr') =>
      match (if flag &&& 0x04 ≠ 0 then
               (yr.read_u8).map (fun dr =>
                 ((if flag &&& 0x20 = 0 then -(dr.1 : Int) else (dr.1 : Int)), dr.2))
             else if flag &&& 0x20 = 0 then yr.read_i16
             else some (0, yr)) with
      | none => none
      | some (dy, yr') =>
        (decodePoints endpoints rest xr' yr' (x + dx) (y + dy) (index + 1)).map
          (fun pts =>
            ⟨(x + dx, y + dy), decide (flag &&& 0x01 ≠ 0), endpoints.contains index⟩ :: pts)

/-- `Glyph._simple_outline_points` over the glyph-body bytes (the view after
the 10-byte glyph header), for `contours_count ≥ 0`.  The x- and y-coordinate
sub-streams are sliced from the body at the cursor after the flag loop, sized
by the accumulated `x_len`/`y_len`. -/
def simpleOutlinePoints (contours_count : Nat) (body : List Nat) :
    Option (List GlyphPoint) :=
  if contours_count = 0 then some []
  else
    match readU16List (Reader.mk body 0) contours_count with
    | none => none
    | some (endpoints, r) =>
      match endpoints.getLast? with
      | none => none
      | some lastEp =>
        if lastEp + 1 = 1 then some []
        else
          match r.read_u16 with
          | none => none
          | some (instructions_len, r) =>
            match readFlags (r.advance instructions_len) (lastEp + 1) with
            | none => none
            | some (flags, x_len, y_len, r) =>
              decodePoints endpoints flags
                (Reader.mk ((body.take (r.pos + x_len)).drop r.pos) 0)
                (Reader.mk ((body.take (r.pos + x_len + y_len)).drop (r.pos + x_len)) 0)
                0 0 0

theorem readFlagsFuel_length (fuel : Nat) :
    ∀ r flagsLeft acc xl yl flags xl' yl' r',
      readFlagsFuel fuel r flagsLeft acc xl yl = some (flags, xl', yl', r') →
      acc.length + flagsLeft ≤ flags.length := by
  induction fuel with
  | zero =>
    intro r fl acc xl yl flags xl' yl' r' h
    exact Option.noConfusion h
  | succ fuel ih =>
    intro r fl acc xl yl flags xl' yl' r' h
    rw [readFlagsFuel] at h
    by_cases h0 : fl = 0
    · rw [if_pos h0] at h
      simp only [Option.some.injEq, Prod.mk.injEq] at h
      obtain ⟨h1, -, -, -⟩ := h
      subst h1
      omega
    · rw [if_neg h0] at h
      cases hu8 : r.read_u8 with
      | none => rw [hu8] at h; exact Option.noConfusion h
      | some fr =>
        obtain ⟨flag, r1⟩ := fr
        rw [hu8] at h
        simp only at h
        cases hex : (if flag &&& 0x08 ≠ 0 then r1.read_u8 else some (0, r1)) with
        | none => rw [hex] at h; exact Option.noConfusion h
        | some er =>
          obtain ⟨extra, r2⟩ := er
          rw [hex] at h
          simp only at h
          by_cases hbr : fl < 1 + extra
          · rw [if_pos hbr] at h
            simp only [Option.some.injEq, Prod.mk.injEq] at h
            obtain ⟨h1, -, -, -⟩ := h
            subst h1
            simp only [List.length_append, List.length_replicate]
            omega
          · rw [if_neg hbr] at h
            have := ih r2 (fl - (1 + extra)) (acc ++ List.replicate (1 + extra) flag)
              (xl + xContrib flag (1 + extra)) (yl + yContrib flag (1 + extra))
              flags xl' yl' r' h
            simp only [List.length_append, List.length_replicate] at this
            omega

theorem decodePoints_length (endpoints : List Nat) :
    ∀ flags xr yr x y index pts,
      decodePoints endpoints flags xr yr x y index = some pts →
      pts.length = flags.length := by
  intro flags
  induction flags with
  | nil =>
    intro xr yr x y index pts h
    simp only [decodePoints, Option.some.injEq] at h
    subst h
    rfl
  | cons flag rest ih =>
    intro xr yr x y index pts h
    rw [decodePoints] at h
    cases hx : (if flag &&& 0x02 ≠ 0 then
        (xr.read_u8).map (fun dr =>
          ((if flag &&& 0x10 = 0 then -(dr.1 : Int) else (dr.1 : Int)), dr.2))
      else if flag &&& 0x10 = 0 then xr.read_i16
      else some (0, xr)) with
    | none => rw [hx] at h; exact Option.noConfusion h
    | some dxr =>
      obtain ⟨dx, xr'⟩ := dxr
      rw [hx] at h
      simp only at h
      cases hy : (if flag &&& 0x04 ≠ 0 then
          (yr.read_u8).map (fun dr =>
            ((if flag &&& 0x20 = 0 then -(dr.1 : Int) else (dr.1 : Int)), dr.2))
        else if flag &&& 0x20 = 0 then yr.read_i16
        else some (0, yr)) with
      | none => rw [hy] at h; exact Option.noConfusion h
      | some dyr =>
        obtain ⟨dy, yr'⟩ := dyr
        rw [hy] at h
        simp only at h
        cases hrec : decodePoints endpoints rest xr' yr' (x + dx) (y + dy) (index + 1) with
        | none => rw [hrec] at h; exact Option.noConfusion h
        | some pts' =>
          rw [hrec] at h
          simp only [Option.map_some', Option.some.injEq] at h
          subst h
          simp only [List.length_cons]
          rw [ih xr' yr' (x + dx) (y + dy) (index + 1) pts' hrec]

/--
C4 (amended).  The flag loop does *not* truncate a repeat run to
`point_count`: the whole run is appended before the `repeats > flags_left`
test, which only ends the loop.  Consequently the collected flag array has at
least `point_count` entries (strictly more after an overshooting run), the
decoder then yields exactly one glyph point per collected flag — possibly more
than `point_count` — and the overshooting run contributes nothing to the
coordinate sub-stream lengths (so decoding such input can also fail with
`Truncated` when those flags need coordinate bytes).
-/
theorem c4_flag_run_decoding (contours_count lastEp instructions_len x_len y_len : Nat)
    (body endpoints flags : List Nat) (r1 r2 r3 : Reader) (pts : List GlyphPoint)
    (hcc : contours_count ≠ 0)
    (hep : readU16List (Reader.mk body 0) contours_count = some (endpoints, r1))
    (hlast : endpoints.getLast? = some lastEp)
    (hnot1 : lastEp + 1 ≠ 1)
    (hinstr : r1.read_u16 = some (instructions_len, r2))
    (hflags : readFlags (r2.advance instructions_len) (lastEp + 1)
      = some (flags, x_len, y_len, r3))
    (hpts : simpleOutlinePoints contours_count body = some pts) :
    pts.length = flags.length ∧ lastEp + 1 ≤ flags.length := by
  rw [simpleOutlinePoints, if_neg hcc, hep] at hpts
  simp only at hpts
  rw [hlast] at hpts
  simp only [if_neg hnot1] at hpts
  rw [hinstr] at hpts
  simp only at hpts
  rw [hflags] at hpts
  simp only at hpts
  constructor
  · exact decodePoints_length endpoints flags _ _ 0 0 0 pts hpts
  · have := readFlagsFuel_length (lastEp + 1 + 1) (r2.advance instructions_len)
      (lastEp + 1) [] 0 0 flags x_len y_len r3 hflags
    simpa using this

/-- Malformed simple-glyph body: one contour with endpoint 2 (3 points), no
instructions, then the single flag byte `0x39`
(`ON_CURVE | REPEAT | X_SAME | Y_SAME`) with repeat count 5 — a run of 6 for a
3-point glyph. -/
def c4GlyphBody : List Nat := [0, 2, 0, 0, 0x39, 5]

/--
C4 counterexample.  On `c4GlyphBody` the point count is `3` (last endpoint 2),
yet decoding succeeds with **6** glyph points: the overshooting repeat run is
kept whole, not truncated to `point_count`.
-/
theorem c4_flag_overshoot_counterexample :
    (readU16List (Reader.mk c4GlyphBody 0) 1).map (fun p => p.1) = some [2] ∧
    (simpleOutlinePoints 1 c4GlyphBody).map List.length = some 6 := by
  decide

/-- Witness for `c4_flag_run_decoding` on the malformed body `c4GlyphBody`. -/
theorem c4_flag_run_decoding_witness :
    ([⟨(0, 0), true, false⟩, ⟨(0, 0), true, false⟩, ⟨(0, 0), true, true⟩,
      ⟨(0, 0), true, false⟩, ⟨(0, 0), true, false⟩, ⟨(0, 0), true, false⟩]
        : List GlyphPoint).length
      = ([57, 57, 57, 57, 57, 57] : List Nat).length ∧
    2 + 1 ≤ ([57, 57, 57, 57, 57, 57] : List Nat).length := by
  exact c4_flag_run_decoding 1 2 0 0 0 c4GlyphBody [2] [57, 57, 57, 57, 57, 57]
    (Reader.mk c4GlyphBody 2) (Reader.mk c4GlyphBody 4) (Reader.mk c4GlyphBody 6)
    [⟨(0, 0), true, false⟩, ⟨(0, 0), true, false⟩, ⟨(0, 0), true, true⟩,
     ⟨(0, 0), true, false⟩, ⟨(0, 0), true, false⟩, ⟨(0, 0), true, false⟩]
    (by decide) (by decide) (by decide) (by decide) (by decide) (by decide) (by decide)

/-! ### Points, transforms and the SVG path builder

Floats are exact rationals; `Transform.rotate` (which needs `cos`/`sin`) is
used by no claim and is omitted. -/

structure Point where
  x : ℚ
  y : ℚ
deriving Repr, DecidableEq

def Point.add (a b : Point) : Point := ⟨a.x + b.x, a.y + b.y⟩

def Point.sub (a b : Point) : Point := ⟨a.x - b.x, a.y - b.y⟩

def Point.mul (a : Point) (s : ℚ) : Point := ⟨a.x * s, a.y * s⟩

/-- `Point.lerp(self, other, ratio_other)`: `self * (1 - t) + other * t`. -/
def Point.lerp (a b : Point) (t : ℚ) : Point :=
  ⟨a.x * (1 - t) + b.x * t, a.y * (1 - t) + b.y * t⟩

/-- Row-major 2×3 affine transform. -/
structure Transform where
  m00 : ℚ
  m01 : ℚ
  m02 : ℚ
  m10 : ℚ
  m11 : ℚ
  m12 : ℚ
deriving Repr, DecidableEq

def Transform.identity : Transform := ⟨1, 0, 0, 0, 1, 0⟩

/-- `Transform.__matmul__`: 3×3 multiplication with implicit `[0,0,1]` row. -/
def Transform.matmul (s o : Transform) : Transform :=
  ⟨s.m00 * o.m00 + s.m01 * o.m10,
   s.m00 * o.m01 + s.m01 * o.m11,
   s.m00 * o.m02 + s.m01 * o.m12 + s.m02,
   s.m10 * o.m00 + s.m11 * o.m10,
   s.m10 * o.m01 + s.m11 * o.m11,
   s.m10 * o.m02 + s.m11 * o.m12 + s.m12⟩

def Transform.translate (t : Transform) (tx ty : ℚ) : Transform :=
  t.matmul ⟨1, 0, tx, 0, 1, ty⟩

def Transform.scale (t : Transform) (sx sy : ℚ) : Transform :=
  t.matmul ⟨sx, 0, 0, 0, sy, 0⟩

/-- `Transform.__call__`. -/
def Transform.apply (t : Transform) (p : Point) : Point :=
  ⟨p.x * t.m00 + p.y * t.m01 + t.m02, p.x * t.m10 + p.y * t.m11 + t.m12⟩

theorem Transform.identity_matmul (t : Transform) :
    Transform.identity.matmul t = t := by
  cases t
  simp [Transform.matmul, Transform.identity]

/-- Python `round` to an integer: nearest, ties to even. -/
def roundHalfEven (q : ℚ) : Int :=
  if q - ⌊q⌋ < 1 / 2 then ⌊q⌋
  else if 1 / 2 < q - ⌊q⌋ then ⌊q⌋ + 1
  else if ⌊q⌋ % 2 = 0 then ⌊q⌋ else ⌊q⌋ + 1

/-- Python `round(x, ndigits)` over exact rationals. -/
def pyRound (q : ℚ) (ndigits : Nat) : ℚ :=
  (roundHalfEven (q * 10 ^ ndigits) : ℚ) / 10 ^ ndigits

/-- Decimal digits of the fractional part `q ∈ [0, 1)`, stopping at a zero
remainder (at most `fuel` digits; every value rounded to 2 decimals
terminates within 2). -/
def fracDigits : Nat → ℚ → String
  | 0, _ => ""
  | fuel + 1, q =>
    if q = 0 then ""
    else
      String.singleton (Char.ofNat (48 + (⌊q * 10⌋).toNat))
        ++ fracDigits fuel (q * 10 - ⌊q * 10⌋)

/-- `f"{x:g}"` for a nonnegative rational in plain (non-exponent) range:
minimal decimal form with trailing zeros stripped. -/
def fmtNonneg (q : ℚ) : String :=
  if q - ⌊q⌋ = 0 then toString (⌊q⌋.toNat)
  else toString (⌊q⌋.toNat) ++ "." ++ fracDigits 20 (q - ⌊q⌋)

/-- `f"{x:g}"`: sign then magnitude (the exponent forms `%g` uses for very
large or tiny magnitudes lie outside the 100×100 coordinate range emitted
here). -/
def fmtG (q : ℚ) : String :=
  if q < 0 then "-" ++ fmtNonneg (-q) else fmtNonneg q

/-- `SVGOutlineBuilder` state: the accumulated output string plus the
constructor parameters and `_point_prev`. -/
structure SvgBuilder where
  out : String
  relative : Bool
  precision : Nat
  tr : Transform
  point_prev : Point
deriving Repr, DecidableEq

/-- `SVGOutlineBuilder.__init__` (precision defaults to 2, `_point_prev` to
the origin, the output starts empty). -/
def SvgBuilder.init (relative : Bool) (precision : Nat) (tr : Transform) : SvgBuilder :=
  ⟨"", relative, precision, tr, ⟨0, 0⟩⟩

def SvgBuilder.write (b : SvgBuilder) (s : String) : SvgBuilder :=
  { b with out := b.out ++ s }

/-- `SVGOutlineBuilder._write_point`: apply the builder transform, subtract
`_point_prev` in relative mode, round both coordinates, then write
`[space?] x [comma?] y` — the space only when `sep` and the rounded `x ≥ 0`,
the comma only when the rounded `y ≥ 0`.  Returns the transformed absolute
point (the caller updates `_point_prev`). -/
def SvgBuilder.write_point (b : SvgBuilder) (p : Point) (sep : Bool) :
    Point × SvgBuilder :=
  let q := b.tr.apply p
  let pp := if b.relative then q.sub b.point_prev else q
  let x := pyRound pp.x b.precision
  let y := pyRound pp.y b.precision
  let b1 := if sep ∧ 0 ≤ x then b.write " " else b
  let b2 := b1.write (fmtG x)
  let b3 := if 0 ≤ y then b2.write "," else b2
  let b4 := b3.write (fmtG y)
  (q, b4)

def SvgBuilder.move_to (b : SvgBuilder) (p : Point) : SvgBuilder :=
  let b := b.write (if b.relative then "m" else "M")
  let pb := b.write_point p false
  { pb.2 with point_prev := pb.1 }

def SvgBuilder.line_to (b : SvgBuilder) (p : Point) : SvgBuilder :=
  let b := b.write (if b.relative then "l" else "L")
  let pb := b.write_point p false
  { pb.2 with point_prev := pb.1 }

/-- `quad_to` writes its control point with `sep = False` and the on-curve
anchor — the non-first point of the command — with `sep = True`. -/
def SvgBuilder.quad_to (b : SvgBuilder) (p1 p2 : Point) : SvgBuilder :=
  let b := b.write (if b.relative then "q" else "Q")
  let pb1 := b.write_point p1 false
  let pb2 := pb1.2.write_point p2 true
  { pb2.2 with point_prev := pb2.1 }

def SvgBuilder.cubic_to (b : SvgBuilder) (p1 p2 p3 : Point) : SvgBuilder :=
  let b := b.write (if b.relative then "c" else "C")
  let pb1 := b.write_point p1 false
  let pb2 := pb1.2.write_point p2 true
  let pb3 := pb2.2.write_point p3 true
  { pb3.2 with point_prev := pb3.1 }

def SvgBuilder.close (b : SvgBuilder) : SvgBuilder := b.write "Z"

theorem str_append_empty (s : String) : s ++ "" = s := by
  cases s with
  | mk l => exact congrArg String.mk (List.append_nil l)

/--
C7 (amended).  `_write_point` writes, after the already-accumulated output:
a space exactly when the point is a `sep` point (the non-first point of its
command) *and* its rendered x is ≥ 0; then the x coordinate; then a comma
exactly when the rendered y is ≥ 0 (a leading minus sign on y serving as the
separator otherwise); then the y coordinate.  The comma between x and y is
therefore conditional, not unconditional as claimed.  The returned point is
the transformed absolute point.
-/
theorem c7_write_point_separators (b : SvgBuilder) (p : Point) (sep : Bool) :
    (b.write_point p sep).2.out =
      b.out
        ++ (if sep ∧ 0 ≤ pyRound (if b.relative then (b.tr.apply p).sub b.point_prev
              else b.tr.apply p).x b.precision then " " else "")
        ++ fmtG (pyRound (if b.relative then (b.tr.apply p).sub b.point_prev
              else b.tr.apply p).x b.precision)
        ++ (if 0 ≤ pyRound (if b.relative then (b.tr.apply p).sub b.point_prev
              else b.tr.apply p).y b.precision then "," else "")
        ++ fmtG (pyRound (if b.relative then (b.tr.apply p).sub b.point_prev
              else b.tr.apply p).y b.precision) ∧
    (b.write_point p sep).1 = b.tr.apply p := by
  constructor
  · simp only [SvgBuilder.write_point, SvgBuilder.write]
    by_cases h1 : sep ∧ 0 ≤ pyRound (if b.relative then (b.tr.apply p).sub b.point_prev
        else b.tr.apply p).x b.precision
    · by_cases h2 : 0 ≤ pyRound (if b.relative then (b.tr.apply p).sub b.point_prev
          else b.tr.apply p).y b.precision
      · simp [h1, h2]
      · simp [h1, h2, str_append_empty]
    · by_cases h2 : 0 ≤ pyRound (if b.relative then (b.tr.apply p).sub b.point_prev
          else b.tr.apply p).y b.precision
      · simp [h1, h2, str_append_empty]
      · simp [h1, h2, str_append_empty]
  · simp only [SvgBuilder.write_point]

/--
C7 counterexample.  `move_to (5, −3)` on an absolute identity builder emits
`"M5-3"`: there is **no** comma between the x and y coordinates (the rendered
y is negative), contradicting the claim that a comma is always written between
a point's x and y.
-/
theorem c7_comma_counterexample :
    ((SvgBuilder.init false 2 Transform.identity).move_to ⟨5, -3⟩).out = "M5-3" ∧
    (("M5-3".toList).contains ',') = false := by
  have happ : Transform.identity.apply ⟨5, -3⟩ = ⟨5, -3⟩ := by
    simp [Transform.apply, Transform.identity]
  have hx : pyRound (5 : ℚ) 2 = 5 := by
    have h1 : ((5 : ℚ) * 10 ^ 2) = 500 := by norm_num
    have h2 : ⌊(500 : ℚ)⌋ = 500 := by norm_num
    rw [pyRound, h1, roundHalfEven, h2]
    norm_num
  have hy : pyRound (-3 : ℚ) 2 = -3 := by
    have h1 : ((-3 : ℚ) * 10 ^ 2) = -300 := by norm_num
    have h2 : ⌊(-300 : ℚ)⌋ = -300 := by norm_num
    rw [pyRound, h1, roundHalfEven, h2]
    norm_num
  have hf5 : fmtG (5 : ℚ) = "5" := by
    have h2 : ⌊(5 : ℚ)⌋ = 5 := by norm_num
    rw [fmtG, if_neg (by norm_num), fmtNonneg, h2, if_pos (by norm_num)]
    rfl
  have hf3 : fmtG (-3 : ℚ) = "-3" := by
    have h2 : ⌊(3 : ℚ)⌋ = 3 := by norm_num
    have hneg : -(-3 : ℚ) = 3 := by norm_num
    rw [fmtG, if_pos (by norm_num), hneg, fmtNonneg, h2, if_pos (by norm_num)]
    rfl
  constructor
  · simp only [SvgBuilder.move_to, SvgBuilder.write_point, SvgBuilder.write,
      SvgBuilder.init, happ]
    rw [if_neg (show ¬((false : Bool) = true) by simp)]
    simp only []
    rw [hx, hy, hf5, hf3]
    rw [if_neg (by simp), if_neg (by norm_num)]
    rfl
  · decide

/-! ### Outline reconstruction and `Glyph.to_svg_path` -/

/-- The outline-builder capability set (`OutlineBuilder` protocol), as a
record of state transformers for a builder state `β`. -/
structure BuilderOps (β : Type) where
  move_to : β → Point → β
  line_to : β → Point → β
  quad_to : β → Point → Point → β
  cubic_to : β → Point → Point → Point → β
  close : β → β

def svgOps : BuilderOps SvgBuilder :=
  ⟨SvgBuilder.move_to, SvgBuilder.line_to, SvgBuilder.quad_to,
   SvgBuilder.cubic_to, SvgBuilder.close⟩

/-- `BBoxBuilder._extend`: grow the running min/max box componentwise. -/
def bboxExtend : Option (Point × Point) → Point → Option (Point × Point)
  | none, p => some (p, p)
  | some (mn, mx), p =>
    some (⟨if p.x < mn.x then p.x else mn.x, if p.y < mn.y then p.y else mn.y⟩,
          ⟨if mx.x < p.x then p.x else mx.x, if mx.y < p.y then p.y else mx.y⟩)

/-- `BBoxBuilder`: `move_to` and `close` are ignored; line/quad/cubic extend
over every passed point. -/
def bboxOps : BuilderOps (Option (Point × Point)) :=
  ⟨fun st _ => st,
   bboxExtend,
   fun st p1 p2 => bboxExtend (bboxExtend st p1) p2,
   fun st p1 p2 p3 => bboxExtend (bboxExtend (bboxExtend st p1) p2) p3,
   fun st => st⟩

/-- Integer glyph coordinates become number-typed points when handed to the
builders. -/
def ptQ (c : Int × Int) : Point := ⟨(c.1 : ℚ), (c.2 : ℚ)⟩

/-- Loop state of `Glyph._simple_outline`. -/
structure OState (β : Type) where
  b : β
  first_on : Option Point
  first_off : Option Point
  last_off : Option Point

/-- One iteration of the `_simple_outline` loop: the TrueType quadratic
reassembly (off-curve runs produce implicit midpoint anchors), followed by the
contour-closing block when the point is its contour's last. -/
def outlineStep {β : Type} (ops : BuilderOps β) (tr : Transform) (st : OState β)
    (point : GlyphPoint) : OState β :=
  let pc := ptQ point.coord
  let st1 :=
    match st.first_on with
    | none =>
      if point.on_curve then
        { st with first_on := some pc, b := ops.move_to st.b (tr.apply pc) }
      else
        match st.first_off with
        | some fo =>
          let mid := fo.lerp pc (1 / 2)
          { st with first_on := some mid, last_off := some pc,
                    b := ops.move_to st.b (tr.apply mid) }
        | none => { st with first_off := some pc }
    | some _ =>
      match st.last_off with
      | some lo =>
        if point.on_curve then
          { st with b := ops.quad_to st.b (tr.apply lo) (tr.apply pc),
                    last_off := none }
        else
          let mid := lo.lerp pc (1 / 2)
          { st with b := ops.quad_to st.b (tr.apply lo) (tr.apply mid),
                    last_off := some pc }
      | none =>
        if point.on_curve then { st with b := ops.line_to st.b (tr.apply pc) }
        else { st with last_off := some pc }
  if point.last then
    let st2 :=
      match st1.first_off, st1.last_off with
      | some fo, some lo =>
        let mid := lo.lerp fo (1 / 2)
        { st1 with b := ops.quad_to st1.b (tr.apply lo) (tr.apply mid),
                   last_off := none }
      | _, _ => st1
    let st3 :=
      match st2.first_on with
      | some fon =>
        match st2.first_off with
        | some fo => { st2 with b := ops.quad_to st2.b (tr.apply fo) (tr.apply fon) }
        | none =>
          match st2.last_off with
          | some lo => { st2 with b := ops.quad_to st2.b (tr.apply lo) (tr.apply fon) }
          | none => { st2 with b := ops.line_to st2.b (tr.apply fon) }
      | none => st2
    ⟨ops.close st3.b, none, none, none⟩
  else st1

/-- `Glyph._simple_outline` over an already-decoded point list. -/
def simpleOutline {β : Type} (ops : BuilderOps β) (pts : List GlyphPoint)
    (tr : Transform) (b : β) : β :=
  (pts.foldl (outlineStep ops tr) ⟨b, none, none, none⟩).b

/-- A decoded glyph: a simple glyph is its point list; a composite glyph is
its component list, each child with the component transform parsed from its
flags.  (Python recurses through `glyf` by glyph id; valid fonts give a
finite tree — on a cyclic composite the Python recursion would not
terminate.) -/
inductive GlyphTree where
  | simple (pts : List GlyphPoint)
  | composite (children : List (Transform × GlyphTree))

/-- `Glyph.build_outline`: simple glyphs drive the builder directly, composite
glyphs recurse into each child with the parent transform composed with the
component transform (`tr @ ts`), in component order. -/
def buildOutline {β : Type} (ops : BuilderOps β) : GlyphTree → Transform → β → β
  | .simple pts, tr, b => simpleOutline ops pts tr b
  | .composite [], _, b => b
  | .composite ((ts, c) :: rest), tr, b =>
    buildOutline ops (.composite rest) tr (buildOutline ops c (tr.matmul ts) b)
termination_by g => sizeOf g
decreasing_by
  all_goals simp_wf
  all_goals omega

def listMinI : List Int → Option Int
  | [] => none
  | x :: xs => some (xs.foldl min x)

def listMaxI : List Int → Option Int
  | [] => none
  | x :: xs => some (xs.foldl max x)

/-- `Glyph.bbox`: composite glyphs run the bbox builder over the outline;
simple glyphs scan the decoded points (an empty point list — including
`contours_count == 0` — yields `None`). -/
def bboxG : GlyphTree → Option (Point × Point)
  | .simple pts =>
    match listMinI (pts.map (fun p => p.coord.1)), listMinI (pts.map (fun p => p.coord.2)),
        listMaxI (pts.map (fun p => p.coord.1)), listMaxI (pts.map (fun p => p.coord.2)) with
    | some x0, some y0, some x1, some y1 =>
      some (⟨(x0 : ℚ), (y0 : ℚ)⟩, ⟨(x1 : ℚ), (y1 : ℚ)⟩)
    | _, _, _, _ => none
  | .composite cs => buildOutline bboxOps (.composite cs) Transform.identity none

/-- `em = max(units_per_em, bbox_w * 1.1, bbox_h * 1.1)` (11/10 is the exact
value of the decimal literal `1.1`; the binary float `1.1` differs from it by
`≈ 9·10⁻¹⁷`, an abstraction of this model). -/
def svgEm (units_per_em : ℚ) (bmin bmax : Point) : ℚ :=
  max (max units_per_em ((bmax.x - bmin.x) * (11 / 10))) ((bmax.y - bmin.y) * (11 / 10))

/-- `mid = (bbox[0] + bbox[1]) * 0.5`. -/
def svgMid (bmin bmax : Point) : Point := (bmin.add bmax).mul (1 / 2)

/-- `center = Point(em/2, em/2) - mid`. -/
def svgCenter (units_per_em : ℚ) (bmin bmax : Point) : Point :=
  (Point.mk (svgEm units_per_em bmin bmax / 2) (svgEm units_per_em bmin bmax / 2)).sub
    (svgMid bmin bmax)

/-- The transform `to_svg_path` composes onto the caller's:
`Transform(1,0,0,0,-1,100).scale(100/em, 100/em).translate(center.x, center.y)`. -/
def toSvgTr (units_per_em : ℚ) (bmin bmax : Point) : Transform :=
  ((Transform.mk 1 0 0 0 (-1) 100).scale
      (100 / svgEm units_per_em bmin bmax) (100 / svgEm units_per_em bmin bmax)).translate
    (svgCenter units_per_em bmin bmax).x (svgCenter units_per_em bmin bmax).y

/-- `Glyph.to_svg_path`: empty bbox ⇒ empty string; otherwise build the
outline into an `SVGOutlineBuilder` whose transform is the caller transform
(identity when absent) composed with `toSvgTr`. -/
def to_svg_path (units_per_em : ℚ) (g : GlyphTree) (relative : Bool)
    (trOpt : Option Transform) : String :=
  match bboxG g with
  | none => ""
  | some (bmin, bmax) =>
    (buildOutline svgOps g Transform.identity
      (SvgBuilder.init relative 2
        ((trOpt.getD Transform.identity).matmul (toSvgTr units_per_em bmin bmax)))).out

/-- Modelled from the spec's words, for comparison with the code's transform:
"translate so the bbox midpoint sits at `(em/2, em/2)`; scale by `100/em`;
flip Y via `(1,0,0,0,−1,100)`", the three steps applied to a point in that
order. -/
def specNormalize (units_per_em : ℚ) (bmin bmax : Point) (p : Point) : Point :=
  let em := svgEm units_per_em bmin bmax
  let translated := p.add ((Point.mk (em / 2) (em / 2)).sub (svgMid bmin bmax))
  let scaled := Point.mk (translated.x * (100 / em)) (translated.y * (100 / em))
  Point.mk (1 * scaled.x + 0 * scaled.y + 0) (0 * scaled.x + (-1) * scaled.y + 100)

/--
C3 (confirmed).  With no caller transform, a glyph with an empty point-scan
bbox renders to the empty string, and a glyph with bbox `(bmin, bmax)` is
emitted through exactly the transform that first translates the bbox midpoint
to `(em/2, em/2)` (with `em = max(units_per_em, 1.1·w, 1.1·h)`), then scales
by `100/em`, then flips Y via `(1,0,0,0,−1,100)`.
-/
theorem c3_to_svg_path_normalization (units_per_em : ℚ) (g : GlyphTree)
    (relative : Bool) :
    (bboxG g = none → to_svg_path units_per_em g relative none = "") ∧
    (∀ bmin bmax, bboxG g = some (bmin, bmax) →
      to_svg_path units_per_em g relative none =
        (buildOutline svgOps g Transform.identity
          (SvgBuilder.init relative 2 (toSvgTr units_per_em bmin bmax))).out ∧
      ∀ p, (toSvgTr units_per_em bmin bmax).apply p
          = specNormalize units_per_em bmin bmax p) := by
  constructor
  · intro h
    rw [to_svg_path, h]
  · intro bmin bmax h
    constructor
    · rw [to_svg_path, h]
      simp only [Option.getD, Transform.identity_matmul]
    · intro p
      simp only [toSvgTr, specNormalize, Transform.scale, Transform.translate,
        Transform.matmul, Transform.apply, svgCenter, svgMid, Point.add,
        Point.sub, Point.mul, Point.mk.injEq]
      constructor <;> ring

/-- One-point simple glyph used to instantiate `c3_to_svg_path_normalization`. -/
def c3WitnessGlyph : GlyphTree := .simple [⟨(0, 0), true, true⟩]

/-- Witness for `c3_to_svg_path_normalization` at `units_per_em = 1000` and
the degenerate one-point bbox. -/
theorem c3_to_svg_path_normalization_witness :
    (toSvgTr 1000 ⟨0, 0⟩ ⟨0, 0⟩).apply ⟨1, 2⟩ = specNormalize 1000 ⟨0, 0⟩ ⟨0, 0⟩ ⟨1, 2⟩ := by
  have hbb : bboxG c3WitnessGlyph = some (⟨0, 0⟩, ⟨0, 0⟩) := by
    simp [c3WitnessGlyph, bboxG, listMinI, listMaxI]
  exact ((c3_to_svg_path_normalization 1000 c3WitnessGlyph false).2 ⟨0, 0⟩ ⟨0, 0⟩ hbb).2 ⟨1, 2⟩

/-! ### Icon catalog (`IconStore`, `store.py`)

The SQLite state is modelled relationally: the `fonts` and `icons` tables are
row lists (both carry a UNIQUE `name`), auto-increment ids are explicit
counters.  File-system modification times are rationals; `modified` is stored
as `math.ceil(timestamp)` (an integer column).  An entry's `icons` field
stands for the deterministic rows the font pipeline produces from the entry's
(unchanged) metadata and font files: `(icon_name, codepoint, zlib(svg))`. -/

structure ManifestEntry where
  name : String
  family : String
  file : String
  metaMtime : ℚ
  fontMtime : ℚ
  icons : List (String × Nat × List Nat)

structure FontRow where
  id : Nat
  name : String
  family : String
  file : String
  modified : Int
deriving Repr, DecidableEq

structure IconRow where
  id : Nat
  name : String
  codepoint : Nat
  svg : List Nat
  fontId : Nat
deriving Repr, DecidableEq

structure DB where
  fonts : List FontRow
  icons : List IconRow
  nextFontId : Nat
  nextIconId : Nat
deriving Repr, DecidableEq

/-- `modified = max(mtime(metadata), mtime(font))`. -/
def entryModified (e : ManifestEntry) : ℚ := max e.metaMtime e.fontMtime

/-- Row lookup by the UNIQUE `name` column (the Python code reads all font
rows into a name-keyed dict). -/
def findFont : List FontRow → String → Option FontRow
  | [], _ => none
  | row :: rest, n => if row.name = n then some row else findFont rest n

/-- `UPSERT_FONTS`: `INSERT … ON CONFLICT(name) DO UPDATE … RETURNING id` — a
conflicting row keeps its id and takes the new family/file/modified, a fresh
row takes the next id. -/
def upsertFont (db : DB) (n fam fil : String) (m : Int) : Nat × DB :=
  match findFont db.fonts n with
  | some row =>
    (row.id,
     { db with fonts := db.fonts.map (fun r =>
         if r.name = n then { r with family := fam, file := fil, modified := m }
         else r) })
  | none =>
    (db.nextFontId,
     { db with fonts := db.fonts ++ [⟨db.nextFontId, n, fam, fil, m⟩],
               nextFontId := db.nextFontId + 1 })

/-- `UPSERT_ICONS` for one row. -/
def upsertIcon (icons : List IconRow) (nextId : Nat) (n : String) (cp : Nat)
    (svg : List Nat) (fid : Nat) : List IconRow × Nat :=
  if (icons.find? (fun row => row.name == n)).isSome then
    (icons.map (fun r =>
       if r.name == n then { r with codepoint := cp, svg := svg, fontId := fid }
       else r), nextId)
  else (icons ++ [⟨nextId, n, cp, svg, fid⟩], nextId + 1)

/-- `executemany(UPSERT_ICONS, icons)` over the prefixed rows
`(f"{font_name}-{icon_name}", codepoint, svg, font_id)`. -/
def upsertIcons : DB → String → Nat → List (String × Nat × List Nat) → DB
  | db, _, _, [] => db
  | db, fontName, fid, (inm, cp, svg) :: rest =>
    upsertIcons
      { db with
          icons := (upsertIcon db.icons db.nextIconId (fontName ++ "-" ++ inm) cp svg fid).1,
          nextIconId := (upsertIcon db.icons db.nextIconId (fontName ++ "-" ++ inm) cp svg fid).2 }
      fontName fid rest

/-- The per-entry loop of `IconStore.update`.  `snapshot` is the font dict
read once at the start of the call; the trigger is
`font_desc.font_id < 0 or font_desc.modified < modified` — always for an
absent row (built with `font_id = -1`, family/file from metadata), otherwise a
strict comparison against the stored (ceiled) timestamp.  A triggered entry
upserts the font row (1 write) and each icon row (`len(icons)` writes); the
second component counts these row writes. -/
def updateGo (snapshot : List FontRow) : List ManifestEntry → DB → Nat → DB × Nat
  | [], db, w => (db, w)
  | e :: rest, db, w =>
    match findFont snapshot e.name with
    | none =>
      updateGo snapshot rest
        (upsertIcons (upsertFont db e.name e.family e.file ⌈entryModified e⌉).2 e.name
          (upsertFont db e.name e.family e.file ⌈entryModified e⌉).1 e.icons)
        (w + 1 + e.icons.length)
    | some row =>
      if (row.modified : ℚ) < entryModified e then
        updateGo snapshot rest
          (upsertIcons (upsertFont db e.name row.family row.file ⌈entryModified e⌉).2 e.name
            (upsertFont db e.name row.family row.file ⌈entryModified e⌉).1 e.icons)
          (w + 1 + e.icons.length)
      else updateGo snapshot rest db w

/-- `IconStore.update`: snapshot the font rows, then process each manifest
entry; returns the updated state and the number of row writes. -/
def IconStore.update (manifest : List ManifestEntry) (db : DB) : DB × Nat :=
  updateGo db.fonts manifest db 0

theorem findFont_map_update (n' n fam fil : String) (m : Int) (h : n' ≠ n) :
    ∀ fonts : List FontRow,
      findFont (fonts.map (fun r => if r.name = n
        then { r with family := fam, file := fil, modified := m } else r)) n'
      = findFont fonts n' := by
  intro fonts
  induction fonts with
  | nil => rfl
  | cons r rest ih =>
    by_cases hr : r.name = n
    · have hr' : ¬(r.name = n') := fun hh => h (hh.symm.trans hr)
      have hnn' : ¬(n = n') := fun hh => h hh.symm
      simp [findFont, hr, hr', hnn', ih]
    · by_cases hr' : r.name = n'
      · simp [findFont, hr, hr', h]
      · simp [findFont, hr, hr', ih]

theorem findFont_map_update_found (n fam fil : String) (m : Int) :
    ∀ (fonts : List FontRow) (row : FontRow), findFont fonts n = some row →
      findFont (fonts.map (fun r => if r.name = n
        then { r with family := fam, file := fil, modified := m } else r)) n
      = some { row with family := fam, file := fil, modified := m } := by
  intro fonts
  induction fonts with
  | nil => intro row hr; exact Option.noConfusion hr
  | cons r rest ih =>
    intro row hrow
    rw [findFont] at hrow
    by_cases hr : r.name = n
    · rw [if_pos hr] at hrow
      have heq : r = row := Option.some.inj hrow
      subst heq
      simp [findFont, hr]
    · rw [if_neg hr] at hrow
      simp [findFont, hr, ih row hrow]

theorem findFont_append_other (a : FontRow) (n' : String) (h : a.name ≠ n') :
    ∀ l : List FontRow, findFont (l ++ [a]) n' = findFont l n' := by
  intro l
  induction l with
  | nil => simp [findFont, h]
  | cons r rest ih =>
    by_cases hr : r.name = n'
    · simp [findFont, hr]
    · simp [findFont, hr, ih]

theorem findFont_append_self (a : FontRow) :
    ∀ l : List FontRow, findFont l a.name = none → findFont (l ++ [a]) a.name = some a := by
  intro l
  induction l with
  | nil =>
    intro _
    simp [findFont]
  | cons r rest ih =>
    intro hnone
    rw [findFont] at hnone
    by_cases hr : r.name = a.name
    · rw [if_pos hr] at hnone
      exact Option.noConfusion hnone
    · rw [if_neg hr] at hnone
      simp [findFont, hr, ih hnone]

theorem findFont_upsertFont_other (db : DB) (n fam fil : String) (m : Int)
    (n' : String) (h : n' ≠ n) :
    findFont (upsertFont db n fam fil m).2.fonts n' = findFont db.fonts n' := by
  rw [upsertFont]
  cases hf : findFont db.fonts n with
  | some row =>
    simp only []
    exact findFont_map_update n' n fam fil m h db.fonts
  | none =>
    simp only []
    exact findFont_append_other ⟨db.nextFontId, n, fam, fil, m⟩ n' (fun hh => h hh.symm) db.fonts

theorem findFont_upsertFont_self (db : DB) (n fam fil : String) (m : Int) :
    ∃ row, findFont (upsertFont db n fam fil m).2.fonts n = some row ∧
      row.modified = m := by
  rw [upsertFont]
  cases hf : findFont db.fonts n with
  | some row =>
    simp only []
    exact ⟨{ row with family := fam, file := fil, modified := m },
      findFont_map_update_found n fam fil m db.fonts row hf, rfl⟩
  | none =>
    simp only []
    exact ⟨⟨db.nextFontId, n, fam, fil, m⟩,
      findFont_append_self ⟨db.nextFontId, n, fam, fil, m⟩ db.fonts hf, rfl⟩

theorem upsertIcons_fonts :
    ∀ (rows : List (String × Nat × List Nat)) (db : DB) (fn : String) (fid : Nat),
      (upsertIcons db fn fid rows).fonts = db.fonts := by
  intro rows
  induction rows with
  | nil => intro db fn fid; rfl
  | cons row rest ih =>
    intro db fn fid
    obtain ⟨inm, cp, svg⟩ := row
    rw [upsertIcons, ih]

theorem updateGo_find_other (snapshot : List FontRow) :
    ∀ es db w n, (∀ e ∈ es, e.name ≠ n) →
      findFont (updateGo snapshot es db w).1.fonts n = findFont db.fonts n := by
  intro es
  induction es with
  | nil => intro db w n _; rfl
  | cons e rest ih =>
    intro db w n hne
    have hn : e.name ≠ n := hne e (List.mem_cons_self e rest)
    have hrest : ∀ x ∈ rest, x.name ≠ n := fun x hx => hne x (List.mem_cons_of_mem e hx)
    rw [updateGo]
    have hn' : n ≠ e.name := fun hh => hn hh.symm
    cases hf : findFont snapshot e.name with
    | none =>
      simp only []
      rw [ih _ _ n hrest, upsertIcons_fonts, findFont_upsertFont_other _ _ _ _ _ _ hn']
    | some row =>
      simp only []
      by_cases ht : (row.modified : ℚ) < entryModified e
      · rw [if_pos ht, ih _ _ n hrest, upsertIcons_fonts,
          findFont_upsertFont_other _ _ _ _ _ _ hn']
      · rw [if_neg ht, ih _ _ n hrest]

theorem updateGo_fresh (snapshot : List FontRow) :
    ∀ es db w, (es.map ManifestEntry.name).Nodup →
      (∀ e ∈ es, findFont db.fonts e.name = findFont snapshot e.name) →
      ∀ e ∈ es, ∃ row,
        findFont (updateGo snapshot es db w).1.fonts e.name = some row ∧
        ¬((row.modified : ℚ) < entryModified e) := by
  intro es
  induction es with
  | nil => intro db w _ _ e he; exact absurd he (List.not_mem_nil e)
  | cons e0 rest ih =>
    intro db w hnd hpre e he
    simp only [List.map_cons, List.nodup_cons] at hnd
    obtain ⟨hnotin, hndrest⟩ := hnd
    have hrest_ne : ∀ x ∈ rest, x.name ≠ e0.name := by
      intro x hx hxe
      exact hnotin (hxe ▸ List.mem_map_of_mem ManifestEntry.name hx)
    rw [updateGo]
    cases hf : findFont snapshot e0.name with
    | none =>
      simp only []
      rcases List.mem_cons.mp he with rfl | hmem
      · rw [updateGo_find_other snapshot rest _ _ e.name hrest_ne, upsertIcons_fonts]
        obtain ⟨row, hrow, hm⟩ :=
          findFont_upsertFont_self db e.name e.family e.file ⌈entryModified e⌉
        refine ⟨row, hrow, ?_⟩
        rw [hm]
        exact not_lt.mpr (Int.le_ceil (entryModified e))
      · refine ih _ _ hndrest ?_ e hmem
        intro x hx
        rw [upsertIcons_fonts,
          findFont_upsertFont_other _ _ _ _ _ _ (hrest_ne x hx)]
        exact hpre x (List.mem_cons_of_mem e0 hx)
    | some row0 =>
      simp only []
      by_cases ht : (row0.modified : ℚ) < entryModified e0
      · rw [if_pos ht]
        rcases List.mem_cons.mp he with rfl | hmem
        · rw [updateGo_find_other snapshot rest _ _ e.name hrest_ne, upsertIcons_fonts]
          obtain ⟨row, hrow, hm⟩ :=
            findFont_upsertFont_self db e.name row0.family row0.file ⌈entryModified e⌉
          refine ⟨row, hrow, ?_⟩
          rw [hm]
          exact not_lt.mpr (Int.le_ceil (entryModified e))
        · refine ih _ _ hndrest ?_ e hmem
          intro x hx
          rw [upsertIcons_fonts,
            findFont_upsertFont_other _ _ _ _ _ _ (hrest_ne x hx)]
          exact hpre x (List.mem_cons_of_mem e0 hx)
      · rw [if_neg ht]
        rcases List.mem_cons.mp he with rfl | hmem
        · rw [updateGo_find_other snapshot rest _ _ e.name hrest_ne]
          rw [hpre e (List.mem_cons_self e rest), hf]
          exact ⟨row0, rfl, ht⟩
        · refine ih _ _ hndrest ?_ e hmem
          intro x hx
          exact hpre x (List.mem_cons_of_mem e0 hx)

theorem updateGo_noop (snapshot : List FontRow) :
    ∀ es db w,
      (∀ e ∈ es, ∃ row, findFont snapshot e.name = some row ∧
        ¬((row.modified : ℚ) < entryModified e)) →
      updateGo snapshot es db w = (db, w) := by
  intro es
  induction es with
  | nil => intro db w _; rfl
  | cons e0 rest ih =>
    intro db w h
    obtain ⟨row, hfind, hnlt⟩ := h e0 (List.mem_cons_self e0 rest)
    rw [updateGo, hfind]
    simp only []
    rw [if_neg hnlt]
    exact ih db w (fun e he => h e (List.mem_cons_of_mem e0 he))

/--
C9 (amended).  With distinct font names in the manifest (as the UNIQUE
`fonts.name` column presumes), a second `update()` on an unchanged manifest
performs zero row writes and leaves the database state identical: after the
first call every manifest entry's row stores `ceil(modified)`, and
`stored < modified` is false since `ceil(modified) ≥ modified`.  The
distinctness proviso is necessary: `font_descs` is a snapshot taken once per
call, so duplicate names all miss it on the first call, the stored `modified`
is the *last* duplicate's ceiled mtime, and a second call rewrites rows
whenever an earlier duplicate's mtime is larger (see the counterexample).
-/
theorem c9_update_idempotent (M : List ManifestEntry) (db0 : DB)
    (h : (M.map ManifestEntry.name).Nodup) :
    IconStore.update M (IconStore.update M db0).1 = ((IconStore.update M db0).1, 0) := by
  have hfresh := updateGo_fresh db0.fonts M db0 0 h (fun e _ => rfl)
  rw [IconStore.update, IconStore.update]
  exact updateGo_noop (updateGo db0.fonts M db0 0).1.fonts M _ 0 (fun e he => hfresh e he)

def c9Manifest : List ManifestEntry :=
  [⟨"a", "fam", "a.ttf", 1, 2, [("x", 65, [1, 2])]⟩]

def c9Db : DB := ⟨[], [], 1, 1⟩

/-- Manifest with two entries sharing the font name `"x"`: the earlier entry
has mtime 5, the later one mtime 2. -/
def c9DupManifest : List ManifestEntry :=
  [⟨"x", "famA", "a.ttf", 5, 5, []⟩, ⟨"x", "famB", "b.ttf", 2, 2, []⟩]

/-- State after the first `update()` of `c9DupManifest` on an empty database:
both duplicates missed the empty snapshot and upserted, so the single row
keeps the *last* duplicate's `ceil(2) = 2`. -/
def c9DupDb1 : DB := ⟨[⟨1, "x", "famB", "b.ttf", 2⟩], [], 2, 1⟩

/-- State after the second `update()`: the first duplicate's check
`stored (2) < modified (5)` fires and rewrites the row with `ceil(5) = 5`. -/
def c9DupDb2 : DB := ⟨[⟨1, "x", "famB", "b.ttf", 5⟩], [], 2, 1⟩

/--
C9 counterexample.  On the unchanged manifest `c9DupManifest` (two entries
named `"x"`, the later with the older mtime) the first `update()` over the
empty database yields `c9DupDb1` (2 row writes) and the *second* call performs
**1** row write and changes the database to `c9DupDb2 ≠ c9DupDb1` — the claim
that a second `update()` on an unchanged manifest performs no row writes and
leaves the state identical is false as stated.
-/
theorem c9_update_duplicate_counterexample :
    IconStore.update c9DupManifest c9Db = (c9DupDb1, 2) ∧
    IconStore.update c9DupManifest c9DupDb1 = (c9DupDb2, 1) ∧
    c9DupDb1 ≠ c9DupDb2 := by
  have hc5 : ⌈(5 : ℚ)⌉ = (5 : Int) := by norm_num
  have hc2 : ⌈(2 : ℚ)⌉ = (2 : Int) := by norm_num
  have hmax5 : max (5 : ℚ) 5 = 5 := max_self 5
  have hmax2 : max (2 : ℚ) 2 = 2 := max_self 2
  have hlt : ((2 : Int) : ℚ) < 5 := by norm_num
  have hnlt : ¬(((2 : Int) : ℚ) < 2) := by norm_num
  have hlt' : (2 : ℚ) < 5 := by norm_num
  have hnlt' : ¬((2 : ℚ) < 2) := by norm_num
  refine ⟨?_, ?_, by decide⟩
  · simp [c9DupManifest, c9Db, c9DupDb1, IconStore.update, updateGo, findFont,
      upsertFont, upsertIcons, entryModified, hmax5, hmax2, hc5, hc2]
  · simp [c9DupManifest, c9DupDb1, c9DupDb2, IconStore.update, updateGo, findFont,
      upsertFont, upsertIcons, entryModified, hmax5, hmax2, hc5, hc2, hlt, hnlt,
      hlt', hnlt']

/-- Witness for `c9_update_idempotent` on a one-font manifest over an empty
database. -/
theorem c9_update_idempotent_witness :
    IconStore.update c9Manifest (IconStore.update c9Manifest c9Db).1
      = ((IconStore.update c9Manifest c9Db).1, 0) := by
  exact c9_update_idempotent c9Manifest c9Db (by simp [c9Manifest])

/-- The error `IconStore.update` raises when `descriptions.json` is absent. -/
inductive InitErr where
  | manifestMissing
deriving Repr, DecidableEq

/-- `IconStore.__init__` after opening the database and creating the tables:
`if not self.get_icon_count(): self.update()`.  `manifest` is the parsed
`descriptions.json` when that file exists, `none` when it is absent (then
`update()` raises `ValueError`, which propagates out of the constructor).
The returned flag records whether `update` ran during construction. -/
def iconStoreInit (manifest : Option (List ManifestEntry)) (db : DB) :
    Except InitErr (DB × Bool) :=
  if db.icons.length = 0 then
    match manifest with
    | none => .error .manifestMissing
    | some m => .ok ((IconStore.update m db).1, true)
  else .ok (db, false)

/--
C10 (confirmed).  Constructing an `IconStore` over a database with zero icon
rows runs `update()` (and therefore fails when the manifest file is absent),
while constructing one over a database that already has at least one icon row
performs no update and leaves the state untouched.
-/
theorem c10_init_update_gate (db : DB) :
    (db.icons = [] → iconStoreInit none db = .error .manifestMissing) ∧
    (∀ m, db.icons = [] →
      iconStoreInit (some m) db = .ok ((IconStore.update m db).1, true)) ∧
    (∀ mopt, db.icons ≠ [] → iconStoreInit mopt db = .ok (db, false)) := by
  refine ⟨?_, ?_, ?_⟩
  · intro h
    simp [iconStoreInit, h]
  · intro m h
    simp [iconStoreInit, h]
  · intro mopt h
    simp [iconStoreInit, List.length_eq_zero, h]

/-- Witness for `c10_init_update_gate` at concrete databases. -/
theorem c10_init_update_gate_witness :
    iconStoreInit none ⟨[], [], 1, 1⟩ = .error .manifestMissing ∧
    iconStoreInit (some []) ⟨[], [], 1, 1⟩
      = .ok ((IconStore.update [] ⟨[], [], 1, 1⟩).1, true) ∧
    iconStoreInit none ⟨[], [⟨1, "a-x", 65, [1], 1⟩], 1, 2⟩
      = .ok (⟨[], [⟨1, "a-x", 65, [1], 1⟩], 1, 2⟩, false) := by
  have h1 := c10_init_update_gate ⟨[], [], 1, 1⟩
  have h2 := c10_init_update_gate ⟨[], [⟨1, "a-x", 65, [1], 1⟩], 1, 2⟩
  exact ⟨h1.1 rfl, h1.2.1 [] rfl, h2.2.2 none (by simp)⟩

end IconViewer
